import Mathlib

/-!
Verification of the ypbank_system codec layer (Rust) against its
natural-language specification, via a shallow embedding in Lean 4.

Strings are modelled as `List Char`; Rust byte indices coincide with
character indices on the ASCII content that the positional codecs slice.
`rust_decimal::Decimal` is modelled structurally as an integer mantissa
with a decimal scale (`Decimal::from_str` / `Display` preserve the scale).
`chrono::NaiveDate` is modelled as a year/month/day triple together with
the `from_ymd_opt` validity test.  Wall-clock values (`chrono::Utc::now`)
are threaded as explicit parameters.
-/

set_option maxRecDepth 4000

/-- Character-list strings (Rust `&str` content). -/
abbrev Str := List Char

/-- Rust `char::is_whitespace`, restricted to the whitespace characters
that occur in the formats in scope. -/
def isWs (c : Char) : Bool := c = ' ' ∨ c = '\t' ∨ c = '\r' ∨ c = '\n'

/-- Rust `char::is_ascii_digit`. -/
def isDigitCh (c : Char) : Bool := 48 ≤ c.toNat ∧ c.toNat ≤ 57

/-- Rust `char::is_alphabetic` on the ASCII content the Line codec scans
(the amount region holds only digits and a comma). -/
def isAlphaCh (c : Char) : Bool :=
  (65 ≤ c.toNat ∧ c.toNat ≤ 90) ∨ (97 ≤ c.toNat ∧ c.toNat ≤ 122)

/-- Rust `str::trim`: drop leading and trailing whitespace. -/
def trimChars (s : Str) : Str :=
  ((s.dropWhile isWs).reverse.dropWhile isWs).reverse

/-- Rust `str::starts_with` for a literal pattern. -/
def startsWithStr (s pre : Str) : Bool := pre.isPrefixOf s

/-- The decimal digit character for `n < 10` (as Rust formatting emits). -/
def digitChar (n : Nat) : Char := Char.ofNat (48 + n)

/-- Fuelled decimal rendering of a natural number (most significant first). -/
def natDigitsAux : Nat → Nat → List Char
  | 0, _ => []
  | fuel + 1, n =>
    if n < 10 then [digitChar n]
    else natDigitsAux fuel (n / 10) ++ [digitChar (n % 10)]

/-- Decimal rendering of a natural number, as Rust `{}` formatting prints it. -/
def natDigits (n : Nat) : List Char := natDigitsAux (n + 1) n

/-- Rust `{:02}` formatting: zero-pad to two digits. -/
def pad2 (n : Nat) : List Char :=
  if n < 10 then '0' :: natDigits n else natDigits n

/-- Zero-pad a digit list on the left to length `k`. -/
def padLeftZeros (k : Nat) (ds : List Char) : List Char :=
  List.replicate (k - ds.length) '0' ++ ds

/-- Numeric value of a digit list (helper for the parsers below). -/
def digitsVal (l : List Char) : Nat :=
  l.foldl (fun a c => 10 * a + (c.toNat - 48)) 0

/-- Rust `str::parse::<u32>` (and the u32-sized uses in scope): an optional
leading `+`, then one or more ASCII digits. -/
def parseNatChars (s : Str) : Option Nat :=
  let core := fun (l : Str) =>
    if l ≠ [] ∧ l.all isDigitCh then some (digitsVal l) else none
  if s.head? = some '+' then core s.tail else core s

/-- Rust `str::parse::<i32>`: an optional sign, then ASCII digits (the
two-digit slices in scope cannot overflow `i32`). -/
def parseIntChars (s : Str) : Option Int :=
  if s.head? = some '-' then
    if s.tail.head? = some '+' then none
    else (parseNatChars s.tail).map (fun n => -(n : Int))
  else (parseNatChars s).map (fun n => (n : Int))

/-- `rust_decimal::Decimal`, structurally: `mantissa * 10 ^ (-scale)`.
`from_str` and `Display` preserve the scale, so the structural model is
exact for the codecs' parse/print cycle. -/
structure Decimal where
  mantissa : Int
  scale : Nat
  deriving DecidableEq, Repr

/-- Split a character list at the decimal points (helper for `from_str`). -/
def splitOnDot : Str → List Str
  | [] => [[]]
  | c :: rest =>
    if c = '.' then [] :: splitOnDot rest
    else
      match splitOnDot rest with
      | [] => [[c]]
      | p :: ps => (c :: p) :: ps

/-- `rust_decimal::Decimal::from_str`: optional sign, digits with at most one
decimal point, at least one digit; scale bounded by 28 and the mantissa by
96 bits, as in the library. -/
def Decimal.fromChars (s : Str) : Option Decimal :=
  let core := fun (l : Str) (sign : Int) =>
    match splitOnDot l with
    | [ip] =>
      if ip ≠ [] ∧ ip.all isDigitCh ∧ (digitsVal ip : Int) < 2 ^ 96 then
        some ⟨sign * digitsVal ip, 0⟩
      else none
    | [ip, fp] =>
      if (ip ≠ [] ∨ fp ≠ []) ∧ ip.all isDigitCh ∧ fp.all isDigitCh
          ∧ fp.length ≤ 28 ∧ (digitsVal (ip ++ fp) : Int) < 2 ^ 96 then
        some ⟨sign * digitsVal (ip ++ fp), fp.length⟩
      else none
    | _ => none
  if s.head? = some '-' then core s.tail (-1)
  else if s.head? = some '+' then core s.tail 1
  else core s 1

/-- `rust_decimal::Decimal`'s `Display`: mantissa digits with the decimal
point placed `scale` digits from the right (zero-padded). -/
def Decimal.toChars (d : Decimal) : Str :=
  let m := d.mantissa.natAbs
  let body :=
    if d.scale = 0 then natDigits m
    else natDigits (m / 10 ^ d.scale) ++
      '.' :: padLeftZeros d.scale (natDigits (m % 10 ^ d.scale))
  if d.mantissa < 0 then '-' :: body else body

/-- `chrono::NaiveDate`, structurally. -/
structure Date where
  year : Int
  month : Nat
  day : Nat
  deriving DecidableEq, Repr

/-- Gregorian leap-year test (as `chrono` implements it). -/
def isLeap (y : Int) : Bool := y % 4 = 0 ∧ (y % 100 ≠ 0 ∨ y % 400 = 0)

/-- Days in a month (as `chrono` implements it). -/
def daysInMonth (y : Int) (m : Nat) : Nat :=
  if m = 1 ∨ m = 3 ∨ m = 5 ∨ m = 7 ∨ m = 8 ∨ m = 10 ∨ m = 12 then 31
  else if m = 4 ∨ m = 6 ∨ m = 9 ∨ m = 11 then 30
  else if m = 2 then (if isLeap y then 29 else 28)
  else 0

/-- `NaiveDate::from_ymd_opt`. -/
def fromYmdOpt (y : Int) (m d : Nat) : Option Date :=
  if 1 ≤ m ∧ m ≤ 12 ∧ 1 ≤ d ∧ d ≤ daysInMonth y m then some ⟨y, m, d⟩
  else none

/-- `{:04}`-style rendering for the years in scope (all in 1000..9999). -/
def pad4 (n : Nat) : List Char :=
  padLeftZeros 4 (natDigits n)

/-- `chrono::NaiveDate`'s `Display` (`%Y-%m-%d`) for the years in scope. -/
def Date.display (d : Date) : Str :=
  pad4 d.year.toNat ++ '-' :: pad2 d.month ++ '-' :: pad2 d.day

/-- The canonical model's `DebitCredit` indicator (src/types.rs). -/
inductive DebitCredit where
  | Debit
  | Credit
  deriving DecidableEq, Repr

/-- Rust `str::to_uppercase` (ASCII content in scope). -/
def upperChars (s : Str) : Str := s.map Char.toUpper

/-- `DebitCredit::from_str` (src/types.rs): uppercase, then match the
single-letter and ISO renderings. -/
def DebitCredit.fromChars (s : Str) : Option DebitCredit :=
  let u := upperChars s
  if u = "D".toList ∨ u = "DBIT".toList ∨ u = "DEBIT".toList then some .Debit
  else if u = "C".toList ∨ u = "CRDT".toList ∨ u = "CREDIT".toList then some .Credit
  else none

/-- `DebitCredit::to_string` (src/types.rs). -/
def DebitCredit.toChars : DebitCredit → Str
  | .Debit => "D".toList
  | .Credit => "C".toList

/-- `DebitCredit::to_iso_format` (src/types.rs). -/
def DebitCredit.toIsoFormat : DebitCredit → Str
  | .Debit => "DBIT".toList
  | .Credit => "CRDT".toList

/-- The canonical model's `BalanceType` (src/types.rs). -/
inductive BalanceType where
  | Opening
  | Closing
  | Intermediate
  | ForwardAvailable
  deriving DecidableEq, Repr

/-- The canonical model's `Balance` (src/types.rs). -/
structure Balance where
  balance_type : BalanceType
  amount : Decimal
  currency : Str
  debit_credit : DebitCredit
  date : Date
  deriving DecidableEq, Repr

/-- The canonical model's `Transaction` (src/types.rs). -/
structure Transaction where
  reference : Str
  date : Date
  value_date : Option Date
  amount : Decimal
  currency : Str
  debit_credit : DebitCredit
  account : Option Str
  counterparty_account : Option Str
  counterparty_name : Option Str
  bank_identifier : Option Str
  description : Str
  additional_info : Option Str
  deriving DecidableEq, Repr

/-- The canonical model's `Statement` (src/types.rs). -/
structure Statement where
  statement_id : Str
  account : Str
  sequence_number : Option Str
  account_holder : Option Str
  opening_balance : Option Balance
  closing_balance : Option Balance
  transactions : List Transaction
  currency : Str
  creation_date : Option Date
  from_date : Option Date
  to_date : Option Date
  deriving DecidableEq, Repr

/-- `Statement::new` (src/types.rs): remaining fields defaulted to absent. -/
def Statement.new (statement_id account currency : Str) : Statement :=
  { statement_id := statement_id
    account := account
    currency := currency
    sequence_number := none
    account_holder := none
    opening_balance := none
    closing_balance := none
    transactions := []
    creation_date := none
    from_date := none
    to_date := none }

/-- The library error type (src/error.rs), restricted to the variants the
codec layer constructs. -/
inductive Err where
  | XmlError (msg : Str)
  | Mt940ParseError (line : Nat) (message : Str)
  | InvalidDate (s : Str)
  | InvalidAmount (s : Str)
  | MissingField (s : Str)
  | InvalidFormat (s : Str)
  | ParseError (s : Str)
  | ConversionError (s : Str)
  deriving DecidableEq, Repr

/-- Lift an `Option` into the library's `Result`, as Rust `ok_or_else`. -/
def okOr (o : Option α) (e : Err) : Except Err α :=
  match o with
  | some a => .ok a
  | none => .error e

/-- Rust `str::get(n..)`: `None` when `n` exceeds the length. -/
def getFrom (s : Str) (n : Nat) : Option Str :=
  if n ≤ s.length then some (s.drop n) else none

/-- Rust `str::get(a..b)`: `None` when the range exceeds the length. -/
def getRange (s : Str) (a b : Nat) : Option Str :=
  if a ≤ b ∧ b ≤ s.length then some ((s.take b).drop a) else none

/-- Rust `str::replace(',', ".")` (single-character pattern). -/
def replComma (s : Str) : Str := s.map (fun c => if c = ',' then '.' else c)

/-- Rust `str::replace('.', ",")` (single-character pattern). -/
def replDot (s : Str) : Str := s.map (fun c => if c = '.' then ',' else c)

/-- Byte index of the first alphabetic character, or the length when there is
none: Rust `s.find(|c| c.is_alphabetic()).unwrap_or(s.len())` (ASCII content
in scope, where `char::is_alphabetic` agrees with `Char.isAlpha`). -/
def firstAlphaIdx : Str → Nat
  | [] => 0
  | c :: rest => if isAlphaCh c then 0 else firstAlphaIdx rest + 1

/-- Accumulator for `splitDslash` below. -/
def splitDslashAux (acc : Str) : Str → List Str
  | [] => [acc.reverse]
  | [c] => splitDslashAux (c :: acc) []
  | c1 :: c2 :: rest =>
    if c1 = '/' ∧ c2 = '/' then acc.reverse :: splitDslashAux [] rest
    else splitDslashAux (c1 :: acc) (c2 :: rest)

/-- Rust `str::split("//")`: leftmost, non-overlapping (the only `split`
pattern the Line codec uses). -/
def splitDslash (s : Str) : List Str := splitDslashAux [] s

/-- Accumulator for `linesOf` below. -/
def linesOfAux (acc : Str) : Str → List Str
  | [] => if acc = [] then [] else [acc.reverse]
  | c :: rest =>
    if c = '\n' then
      (if acc.head? = some '\r' then acc.tail else acc).reverse :: linesOfAux [] rest
    else linesOfAux (c :: acc) rest

/-- Rust `BufRead::lines` / `str::lines`: split at `\n`, stripping a `\r`
that precedes the `\n`; a final fragment without a newline is kept as-is. -/
def linesOf (s : Str) : List Str := linesOfAux [] s

/-- Join lines with a terminating newline after each (`writeln!`). -/
def joinLines (ls : List Str) : Str := ls.foldr (fun l acc => l ++ '\n' :: acc) []

/-- Rust `i32` `Display`. -/
def intDisplay (i : Int) : Str :=
  if i < 0 then '-' :: natDigits i.natAbs else natDigits i.toNat

namespace Mt940

/-- `parse_mt940_date` (src/mt940_format.rs:355): a YYMMDD field with the
fixed Y2K pivot (`< 50` ⇒ 2000+, else 1900+). -/
def parse_mt940_date (s : Str) : Except Err Date :=
  if s.length ≠ 6 then
    .error (.InvalidDate ("Invalid MT940 date length: ".toList ++ s))
  else
    match (getRange s 0 2).bind parseIntChars with
    | none => .error (.InvalidDate s)
    | some year =>
      match (getRange s 2 4).bind parseNatChars with
      | none => .error (.InvalidDate s)
      | some month =>
        match (getRange s 4 6).bind parseNatChars with
        | none => .error (.InvalidDate s)
        | some day =>
          let full_year := if year < 50 then 2000 + year else 1900 + year
          okOr (fromYmdOpt full_year month day)
            (.InvalidDate
              (intDisplay full_year ++ '-' :: natDigits month ++ '-' :: natDigits day))

/-- `parse_mt940_entry_date` (src/mt940_format.rs:381): an MMDD field using
the year of the value date. -/
def parse_mt940_entry_date (s : Str) (year : Int) : Except Err Date :=
  if s.length ≠ 4 then
    .error (.InvalidDate ("Invalid entry date length: ".toList ++ s))
  else
    match (getRange s 0 2).bind parseNatChars with
    | none => .error (.InvalidDate s)
    | some month =>
      match (getRange s 2 4).bind parseNatChars with
      | none => .error (.InvalidDate s)
      | some day =>
        okOr (fromYmdOpt year month day)
          (.InvalidDate (intDisplay year ++ '-' :: natDigits month ++ '-' :: natDigits day))

/-- `format_mt940_date` (src/mt940_format.rs:400): YYMMDD with `{:02}`
fields (years in scope are positive, so `%` agrees with `Int.emod`). -/
def format_mt940_date (d : Date) : Str :=
  pad2 (d.year % 100).toNat ++ pad2 d.month ++ pad2 d.day

/-- `Mt940Statement::parse_balance` (src/mt940_format.rs:161): fixed offsets
D/C (0), date (1..7), currency (7..10), amount (10..). -/
def parse_balance (line : Str) (balance_type : BalanceType) : Except Err Balance :=
  match
    (if startsWithStr line ":60".toList then getFrom line 5
     else if startsWithStr line ":62".toList then getFrom line 5
     else none) with
  | none => .error (.ParseError ("Invalid balance line: ".toList ++ line))
  | some content =>
    if content.length < 11 then
      .error (.ParseError ("Balance line too short: ".toList ++ line))
    else
      match DebitCredit.fromChars ((getRange content 0 1).getD []) with
      | none => .error (.ParseError ("Invalid D/C indicator in: ".toList ++ line))
      | some dc =>
        match getRange content 1 7 with
        | none => .error (.ParseError ("Invalid date in balance line: ".toList ++ line))
        | some date_str =>
          match parse_mt940_date date_str with
          | .error e => .error e
          | .ok date =>
            match getRange content 7 10 with
            | none =>
              .error (.ParseError ("Invalid currency in balance line: ".toList ++ line))
            | some currency =>
              let amount_str := replComma ((getFrom content 10).getD [])
              match Decimal.fromChars amount_str with
              | none => .error (.InvalidAmount amount_str)
              | some amount =>
                .ok { balance_type, amount, currency, debit_credit := dc, date }

/-- `Mt940Statement::parse_transaction_line` (src/mt940_format.rs:207):
value date, the digit-heuristic optional entry date, D/C, amount up to the
first alphabetic character, and the reference after the last `//`. -/
def parse_transaction_line (line : Str) (default_currency : Str) :
    Except Err Transaction :=
  match getFrom line 4 with
  | none => .error (.ParseError ("Transaction line too short: ".toList ++ line))
  | some content =>
  if content.length < 6 then
    .error (.ParseError ("Transaction line too short: ".toList ++ line))
  else
  match getRange content 0 6 with
  | none => .error (.ParseError ("Invalid value date in: ".toList ++ line))
  | some value_date_str =>
  match parse_mt940_date value_date_str with
  | .error e => .error e
  | .ok value_date =>
  match
    (if content.length > 6 + 4 ∧ isDigitCh ((content.get? (6 + 2)).getD 'X') then
      match getRange content 6 (6 + 4) with
      | none => .error (.ParseError ("Invalid entry date in: ".toList ++ line))
      | some entry_date_str =>
        match parse_mt940_entry_date entry_date_str value_date.year with
        | .error e => .error e
        | .ok d => .ok (d, 6 + 4)
    else .ok (value_date, 6) : Except Err (Date × Nat)) with
  | .error e => .error e
  | .ok (date, pos) =>
  match content.get? pos with
  | none => .error (.Mt940ParseError 0 "Missing D/C indicator".toList)
  | some dc_char =>
  match DebitCredit.fromChars [dc_char] with
  | none => .error (.ParseError ("Invalid D/C: ".toList ++ [dc_char]))
  | some debit_credit =>
  match getFrom content (pos + 1) with
  | none => .error (.ParseError ("Missing amount in: ".toList ++ line))
  | some rest_of_line =>
  let amount_end := firstAlphaIdx rest_of_line
  let amount_str := replComma ((getRange rest_of_line 0 amount_end).getD [])
  match Decimal.fromChars amount_str with
  | none => .error (.InvalidAmount amount_str)
  | some amount =>
  match getFrom rest_of_line amount_end with
  | none => .error (.ParseError ("Invalid format in: ".toList ++ line))
  | some rest =>
  let reference := trimChars ((splitDslash rest).getLast?.getD rest)
  .ok {
    reference :=
      if reference = [] then date.display ++ '-' :: amount.toChars else reference
    date
    value_date := some value_date
    amount
    currency := default_currency
    debit_credit
    account := none
    counterparty_account := none
    counterparty_name := none
    bank_identifier := none
    description := []
    additional_info := none }

/-- The forward-scan accumulators of `parse_mt940` (src/mt940_format.rs:73). -/
structure PState where
  statement_id : Str
  account : Str
  sequence_number : Option Str
  currency : Str
  opening_balance : Option Balance
  closing_balance : Option Balance
  transactions : List Transaction
  current : Option Transaction
  desc : Str
  deriving DecidableEq, Repr

/-- The initial scan state. -/
def pInit : PState :=
  { statement_id := [], account := [], sequence_number := none, currency := []
    opening_balance := none, closing_balance := none, transactions := []
    current := none, desc := [] }

/-- Flush the transaction in progress, attaching its accumulated `:86:`
description (src/mt940_format.rs:107 and :140); the description accumulator
is cleared only when a transaction was pending, as in the source. -/
def flushCur (st : PState) : PState :=
  match st.current with
  | some t =>
    { st with
        transactions := st.transactions ++ [{ t with description := trimChars st.desc }]
        current := none
        desc := [] }
  | none => st

/-- The single forward scan of `parse_mt940` (src/mt940_format.rs:85), with
fuel equal to the number of remaining lines: every iteration consumes at
least one line, so the fuel is never exhausted when initialised with the
line count. -/
def loopAux : Nat → List Str → PState → Except Err PState
  | _, [], st => .ok st
  | 0, _ :: _, st => .ok st
  | fuel + 1, line :: rest, st =>
    if startsWithStr line ":20:".toList then
      loopAux fuel rest { st with statement_id := trimChars (line.drop 4) }
    else if startsWithStr line ":25:".toList then
      loopAux fuel rest { st with account := trimChars (line.drop 4) }
    else if startsWithStr line ":28C:".toList then
      loopAux fuel rest { st with sequence_number := some (trimChars (line.drop 5)) }
    else if startsWithStr line ":60".toList then
      match parse_balance line .Opening with
      | .error e => .error e
      | .ok bal =>
        loopAux fuel rest
          { st with
              opening_balance := some bal
              currency := if st.currency = [] then bal.currency else st.currency }
    else if startsWithStr line ":61:".toList then
      match parse_transaction_line line st.currency with
      | .error e => .error e
      | .ok t => loopAux fuel rest { flushCur st with current := some t }
    else if startsWithStr line ":86:".toList then
      let d0 := trimChars (line.drop 4)
      let conts := rest.takeWhile (fun l => ¬ startsWithStr l [':'])
      loopAux fuel (rest.dropWhile (fun l => ¬ startsWithStr l [':']))
        { st with desc := conts.foldl (fun a l => a ++ ' ' :: trimChars l) d0 }
    else if startsWithStr line ":62".toList then
      match parse_balance line .Closing with
      | .error e => .error e
      | .ok bal => loopAux fuel rest { st with closing_balance := some bal }
    else
      loopAux fuel rest st

/-- `Mt940Statement::parse_mt940` (src/mt940_format.rs:65), over the already
split input lines: run the scan, flush the last transaction, and require the
`:20:`/`:25:` accumulators to be non-empty. -/
def parse_mt940 (lines : List Str) : Except Err Statement :=
  match loopAux lines.length lines pInit with
  | .error e => .error e
  | .ok st0 =>
    let st := flushCur st0
    if st.statement_id = [] then
      .error (.MissingField "statement reference :20:".toList)
    else if st.account = [] then
      .error (.MissingField "account identification :25:".toList)
    else
      .ok { Statement.new st.statement_id st.account st.currency with
              sequence_number := st.sequence_number
              opening_balance := st.opening_balance
              closing_balance := st.closing_balance
              transactions := st.transactions }

/-- The `:60x:`/`:62x:` line written for a balance
(src/mt940_format.rs:311 and :340). -/
def serBalanceLine (tag : Str) (final : Bool) (b : Balance) : Str :=
  tag ++ (if final then ['F'] else ['M']) ++ ':' :: b.debit_credit.toChars
    ++ format_mt940_date b.date ++ b.currency ++ replDot b.amount.toChars

/-- The `:61:` line written for one transaction (src/mt940_format.rs:321). -/
def ser61 (t : Transaction) : Str :=
  ":61:".toList
    ++ format_mt940_date (match t.value_date with | some vd => vd | none => t.date)
    ++ pad2 t.date.month ++ pad2 t.date.day
    ++ t.debit_credit.toChars
    ++ replDot t.amount.toChars
    ++ "NTRF//".toList ++ t.reference

/-- The `:61:` (+ optional `:86:`) lines written for one transaction
(src/mt940_format.rs:320). -/
def serTxLines (t : Transaction) : List Str :=
  ser61 t :: (if t.description = [] then [] else [":86:".toList ++ t.description])

/-- The full line sequence `serialize_mt940` writes
(src/mt940_format.rs:293), one entry per `writeln!`-terminated line. -/
def serLines (stmt : Statement) : List Str :=
  ["\x7b1:F01BANKXXXXAXXX0000000000\x7d\x7b2:I940BANKXXXXAXXXXN\x7d\x7b4:".toList,
   ":20:".toList ++ stmt.statement_id,
   ":25:".toList ++ stmt.account]
  ++ (match stmt.sequence_number with
      | some sq => [":28C:".toList ++ sq]
      | none => [])
  ++ (match stmt.opening_balance with
      | some b => [serBalanceLine ":60".toList (b.balance_type = .Opening) b]
      | none => [])
  ++ (stmt.transactions.map serTxLines).flatten
  ++ (match stmt.closing_balance with
      | some b => [serBalanceLine ":62".toList (b.balance_type = .Closing) b]
      | none => [])
  ++ ["-\x7d".toList]

/-- `Mt940Statement::serialize_mt940` as the text written to the sink. -/
def serialize_mt940 (stmt : Statement) : Str := joinLines (serLines stmt)

end Mt940

/-- Split a character list at a separator character (keeps empty pieces). -/
def splitChar (sep : Char) : Str → List Str
  | [] => [[]]
  | c :: rest =>
    if c = sep then [] :: splitChar sep rest
    else
      match splitChar sep rest with
      | [] => [[c]]
      | p :: ps => (c :: p) :: ps

/-- Index (in characters) of the first occurrence of `pat`: Rust `str::find`
with a literal pattern, on content where bytes and characters align after
the match point. -/
def findSubIdx (pat : Str) : Str → Option Nat
  | [] => if pat = [] then some 0 else none
  | c :: rest =>
    if pat.isPrefixOf (c :: rest) then some 0
    else (findSubIdx pat rest).map (fun n => n + 1)

/-- Rust `split_whitespace().next().unwrap_or("")`. -/
def firstWsToken (s : Str) : Str :=
  (s.dropWhile isWs).takeWhile (fun c => ¬ isWs c)

/-- A chrono one-or-two-digit day/month field (`%d` / `%m`). -/
def parse2digit (s : Str) : Option Nat :=
  if (s.length = 1 ∨ s.length = 2) ∧ s.all isDigitCh then some (digitsVal s)
  else none

/-- A chrono `%Y` year field (four digits for the dates in scope). -/
def parse4year (s : Str) : Option Int :=
  if s.length = 4 ∧ s.all isDigitCh then some ((digitsVal s : Nat) : Int)
  else none

/-- A chrono `%H:%M:%S` time-of-day (validity only; the codecs truncate it). -/
def validTime (s : Str) : Bool :=
  match splitChar ':' s with
  | [h, m, sec] =>
    match parse2digit h, parse2digit m, parse2digit sec with
    | some hh, some mm, some ss =>
      h.length = 2 ∧ m.length = 2 ∧ sec.length = 2 ∧ hh < 24 ∧ mm < 60 ∧ ss < 60
    | _, _, _ => false
  | _ => false

/-- chrono `%Y-%m-%d` date parsing, as an `Option`. -/
def tryIsoDate (s : Str) : Option Date :=
  match splitChar '-' s with
  | [y, m, d] => do
    let yy ← parse4year y
    let mm ← parse2digit m
    let dd ← parse2digit d
    fromYmdOpt yy mm dd
  | _ => none

namespace Csv

/-- One deserialized row of the Tabular format (src/csv_format.rs:23); the
`csv` crate's header/field splitting is the library boundary. -/
structure CsvRecord where
  date : Str
  debit_account : Str
  credit_account : Str
  debit_amount : Str
  credit_amount : Str
  reference : Str
  description : Str
  bank : Str
  deriving DecidableEq, Repr

/-- chrono `parse_from_str` with a day-month-year pattern and the given
separator (`%d.%m.%Y`, `%d/%m/%Y`). -/
def tryDMY (sep : Char) (s : Str) : Option Date :=
  match splitChar sep s with
  | [d, m, y] => do
    let dd ← parse2digit d
    let mm ← parse2digit m
    let yy ← parse4year y
    fromYmdOpt yy mm dd
  | _ => none

/-- chrono `parse_from_str` with `%m/%d/%Y`. -/
def tryMDY (s : Str) : Option Date :=
  match splitChar '/' s with
  | [m, d, y] => do
    let mm ← parse2digit m
    let dd ← parse2digit d
    let yy ← parse4year y
    fromYmdOpt yy mm dd
  | _ => none

/-- `CsvStatement::parse_date` (src/csv_format.rs:200): four literal
patterns tried in fixed priority order on the trimmed cell. -/
def parse_date (date_str : Str) : Except Err Date :=
  let t := trimChars date_str
  match tryDMY '.' t with
  | some d => .ok d
  | none =>
    match tryIsoDate t with
    | some d => .ok d
    | none =>
      match tryDMY '/' t with
      | some d => .ok d
      | none =>
        match tryMDY t with
        | some d => .ok d
        | none => .error (.InvalidDate date_str)

/-- `CsvStatement::parse_amount` (src/csv_format.rs:218): trim, remove
spaces, comma → dot, then the decimal parse. -/
def parse_amount (amount_str : Str) : Except Err Decimal :=
  let cleaned := replComma ((trimChars amount_str).filter (fun c => c ≠ ' '))
  okOr (Decimal.fromChars cleaned) (.InvalidAmount amount_str)

/-- `CsvStatement::extract_account` (src/csv_format.rs:229): first sub-line
of a possibly multi-line cell, trimmed. -/
def extract_account (account_field : Str) : Str :=
  trimChars ((linesOf account_field).head?.getD account_field)

/-- `CsvStatement::extract_bic` (src/csv_format.rs:240): the token after a
`"БИК "` marker, else after a `"BIC "` marker, else the trimmed field. -/
def extract_bic (bank_field : Str) : Str :=
  match findSubIdx "БИК ".toList bank_field with
  | some i => firstWsToken (bank_field.drop (i + 4))
  | none =>
    match findSubIdx "BIC ".toList bank_field with
    | some i => firstWsToken (bank_field.drop (i + 4))
    | none => trimChars bank_field

/-- `CsvStatement::extract_counterparty_name` (src/csv_format.rs:263). -/
def extract_counterparty_name (description debit_account credit_account : Str) :
    Option Str :=
  let account_lines := linesOf debit_account ++ linesOf credit_account
  let fromAcct : Option Str :=
    if account_lines.length ≥ 3 then
      let name := trimChars (account_lines.getD 2 [])
      if name ≠ [] then some name else none
    else none
  match fromAcct with
  | some n => some n
  | none =>
    if description ≠ [] then
      some (trimChars ((linesOf description).head?.getD description))
    else none

/-- The per-row body of `CsvStatement::from_read` (src/csv_format.rs:66):
returns the updated own-account accumulator and the row's transaction, or
`none` for skipped rows. -/
def processRecord (account : Str) (r : CsvRecord) :
    Except Err (Str × Option Transaction) := do
  if trimChars r.date = [] then
    return (account, none)
  let date ← parse_date r.date
  let (amount, debit_credit, counterparty_account, account2) ←
    if r.debit_amount ≠ [] then do
      let amount ← parse_amount r.debit_amount
      let cp := if r.credit_account ≠ [] then some (extract_account r.credit_account)
        else none
      let a2 := if r.debit_account ≠ [] ∧ account = [] then
          extract_account r.debit_account
        else account
      pure (amount, DebitCredit.Debit, cp, a2)
    else if r.credit_amount ≠ [] then do
      let amount ← parse_amount r.credit_amount
      let cp := if r.debit_account ≠ [] then some (extract_account r.debit_account)
        else none
      let a2 := if r.credit_account ≠ [] ∧ account = [] then
          extract_account r.credit_account
        else account
      pure (amount, DebitCredit.Credit, cp, a2)
    else
      return (account, none)
  let t : Transaction := {
    reference := trimChars r.reference
    date
    value_date := some date
    amount
    currency := "RUB".toList
    debit_credit
    account := none
    counterparty_account
    counterparty_name := extract_counterparty_name r.description r.debit_account r.credit_account
    bank_identifier := if r.bank ≠ [] then some (extract_bic r.bank) else none
    description := trimChars r.description
    additional_info := none }
  return (account2, some t)

/-- The row loop of `CsvStatement::from_read`, threading the inferred
own-account value. -/
def runRecords (account : Str) (acc : List Transaction) :
    List CsvRecord → Except Err (Str × List Transaction)
  | [] => .ok (account, acc)
  | r :: rs =>
    match processRecord account r with
    | .error e => .error e
    | .ok (a2, none) => runRecords a2 acc rs
    | .ok (a2, some t) => runRecords a2 (acc ++ [t]) rs

/-- `CsvStatement::from_read` (src/csv_format.rs:59) over the deserialized
records; `now_ts` is the `Utc::now().timestamp()` value used for the
synthesized statement id. -/
def from_records (records : List CsvRecord) (now_ts : Int) : Except Err Statement :=
  match runRecords [] [] records with
  | .error e => .error e
  | .ok (account, txs) =>
    let account := if account = [] then "UNKNOWN".toList else account
    .ok { Statement.new ("CSV-".toList ++ intDisplay now_ts) account "RUB".toList with
            transactions := txs }

end Csv

namespace Camt053

/-- `AmountXml` (src/camt053_format.rs:570): value text with the `@Ccy`
attribute and the `Ccy` child-element alternative. -/
structure AmountXml where
  value : Str
  ccy : Option Str
  ccy_alt : Option Str
  deriving DecidableEq, Repr

/-- `AmountXml::ccy()` (src/camt053_format.rs:580): attribute, else child. -/
def AmountXml.ccyGet (a : AmountXml) : Option Str :=
  match a.ccy with
  | some c => some c
  | none => a.ccy_alt

/-- `DateXml`: date-only or date-time choice. -/
structure DateXml where
  dt : Option Str
  dt_tm : Option Str
  deriving DecidableEq, Repr

/-- `CodeOrProprietaryXml`. -/
structure CodeOrProprietaryXml where
  cd : Str
  deriving DecidableEq, Repr

/-- `BalanceTypeXml`. -/
structure BalanceTypeXml where
  cd_or_prtry : CodeOrProprietaryXml
  deriving DecidableEq, Repr

/-- `BalanceXml`. -/
structure BalanceXml where
  tp : BalanceTypeXml
  amt : AmountXml
  cdt_dbt_ind : Str
  dt : DateXml
  deriving DecidableEq, Repr

/-- `OtherAccountIdXml`. -/
structure OtherAccountIdXml where
  id : Str
  deriving DecidableEq, Repr

/-- `AccountIdXml`: IBAN-like field or other identification. -/
structure AccountIdXml where
  iban : Option Str
  othr : Option OtherAccountIdXml
  deriving DecidableEq, Repr

/-- `PartyXml` (postal address unused by the projection). -/
structure PartyXml where
  nm : Option Str
  deriving DecidableEq, Repr

/-- `AccountXml`. -/
structure AccountXml where
  id : AccountIdXml
  deriving DecidableEq, Repr

/-- `RelatedPartiesXml`. -/
structure RelatedPartiesXml where
  dbtr : Option PartyXml
  dbtr_acct : Option AccountXml
  cdtr : Option PartyXml
  cdtr_acct : Option AccountXml
  deriving DecidableEq, Repr

/-- `FinancialInstitutionIdXml`. -/
structure FinancialInstitutionIdXml where
  bic : Option Str
  deriving DecidableEq, Repr

/-- `AgentXml`. -/
structure AgentXml where
  fin_instn_id : FinancialInstitutionIdXml
  deriving DecidableEq, Repr

/-- `RelatedAgentsXml`. -/
structure RelatedAgentsXml where
  dbtr_agt : Option AgentXml
  cdtr_agt : Option AgentXml
  deriving DecidableEq, Repr

/-- `RemittanceInformationXml` (structured remittance unused). -/
structure RemittanceInformationXml where
  ustrd : Option Str
  deriving DecidableEq, Repr

/-- `ProprietaryCodeXml`. -/
structure ProprietaryCodeXml where
  cd : Str
  deriving DecidableEq, Repr

/-- `BankTransactionCodeXml` (domain code unused by the projection). -/
structure BankTransactionCodeXml where
  prtry : Option ProprietaryCodeXml
  deriving DecidableEq, Repr

/-- `TransactionDetailsXml`, restricted to the fields the projection reads. -/
structure TransactionDetailsXml where
  rltd_pties : Option RelatedPartiesXml
  rltd_agts : Option RelatedAgentsXml
  rmt_inf : Option RemittanceInformationXml
  addtl_tx_inf : Option Str
  deriving DecidableEq, Repr

/-- `EntryDetailsXml` (batch element unused by the projection). -/
structure EntryDetailsXml where
  tx_dtls : Option TransactionDetailsXml
  deriving DecidableEq, Repr

/-- `EntryXml`, restricted to the fields the projection reads. -/
structure EntryXml where
  ntry_ref : Option Str
  amt : AmountXml
  cdt_dbt_ind : Str
  bookg_dt : Option DateXml
  val_dt : Option DateXml
  bk_tx_cd : Option BankTransactionCodeXml
  ntry_dtls : Option EntryDetailsXml
  deriving DecidableEq, Repr

/-- `FromToDateXml`. -/
structure FromToDateXml where
  fr_dt_tm : Option Str
  to_dt_tm : Option Str
  deriving DecidableEq, Repr

/-- `AccountInfoXml`, restricted to the fields the projection reads. -/
structure AccountInfoXml where
  id : AccountIdXml
  ccy : Str
  nm : Option Str
  deriving DecidableEq, Repr

/-- `StatementXml`, restricted to the fields the projection reads. -/
structure StatementXml where
  id : Str
  elctrnic_seq_nb : Option Nat
  cre_dt_tm : Option Str
  fr_to_dt : Option FromToDateXml
  acct : AccountInfoXml
  bal : List BalanceXml
  ntry : List EntryXml
  deriving DecidableEq, Repr

/-- `BankToCustomerStatementXml` (the group header is not read by the
projection into the canonical model). -/
structure BankToCustomerStatementXml where
  stmt : StatementXml
  deriving DecidableEq, Repr

/-- `Document`. -/
structure Document where
  bk_to_cstmr_stmt : BankToCustomerStatementXml
  deriving DecidableEq, Repr

/-- `parse_camt_date` (src/camt053_format.rs:764): try the ISO date-time
pattern and truncate, else fall back to date-only. -/
def parse_camt_date (date_str : Str) : Except Err Date :=
  let dtm : Option Date :=
    match splitChar 'T' date_str with
    | [d, t] => if validTime t then tryIsoDate d else none
    | _ => none
  match dtm with
  | some d => .ok d
  | none => okOr (tryIsoDate date_str) (.InvalidDate date_str)

/-- `parse_date_only` (src/camt053_format.rs:775). -/
def parse_date_only (date_str : Str) : Except Err Date :=
  okOr (tryIsoDate date_str) (.InvalidDate date_str)

/-- The balance-code mapping of `Camt053Statement::parse_balance`
(src/camt053_format.rs:129): `OPBD`/`OPAV` open, `CLBD`/`CLAV` close,
`PRCD` and anything else intermediate. -/
def balanceTypeOfCd (cd : Str) : BalanceType :=
  if cd = "OPBD".toList ∨ cd = "OPAV".toList then BalanceType.Opening
  else if cd = "CLBD".toList ∨ cd = "CLAV".toList then BalanceType.Closing
  else if cd = "PRCD".toList then BalanceType.Intermediate
  else BalanceType.Intermediate

/-- `Camt053Statement::parse_balance` (src/camt053_format.rs:127): the
balance-code mapping, amount/D-C/date parsing, and the `"XXX"` currency
placeholder when the amount element names no currency. -/
def parse_balance (bal : BalanceXml) : Except Err Balance := do
  let cd := bal.tp.cd_or_prtry.cd
  let balance_type := balanceTypeOfCd cd
  let amount ← okOr (Decimal.fromChars bal.amt.value) (.InvalidAmount bal.amt.value)
  let debit_credit ← okOr (DebitCredit.fromChars bal.cdt_dbt_ind)
    (.ParseError ("Invalid D/C indicator: ".toList ++ bal.cdt_dbt_ind))
  let date ←
    match bal.dt.dt with
    | some d => parse_date_only d
    | none =>
      match bal.dt.dt_tm with
      | some dtm => parse_camt_date dtm
      | none => throw (.MissingField "balance date".toList)
  let currency := (bal.amt.ccyGet).getD "XXX".toList
  return { balance_type, amount, currency, debit_credit, date }

/-- `Camt053Statement::parse_entry` (src/camt053_format.rs:161): `now` is
the `Utc::now().date_naive()` value substituted for an absent or empty
booking-date element. -/
def parse_entry (entry : EntryXml) (default_currency : Str) (now : Date) :
    Except Err Transaction := do
  let reference := entry.ntry_ref.getD "UNKNOWN".toList
  let amount ← okOr (Decimal.fromChars entry.amt.value) (.InvalidAmount entry.amt.value)
  let debit_credit ← okOr (DebitCredit.fromChars entry.cdt_dbt_ind)
    (.ParseError ("Invalid D/C indicator: ".toList ++ entry.cdt_dbt_ind))
  let date ←
    match entry.bookg_dt with
    | some dt =>
      match dt.dt with
      | some d => parse_date_only d
      | none =>
        match dt.dt_tm with
        | some dtm => parse_camt_date dtm
        | none => pure now
    | none => pure now
  let value_date ←
    match entry.val_dt with
    | some dt =>
      match dt.dt with
      | some d => (parse_date_only d).map some
      | none =>
        match dt.dt_tm with
        | some dtm => (parse_camt_date dtm).map some
        | none => pure none
    | none => pure none
  let details := entry.ntry_dtls.bind (fun nd => nd.tx_dtls)
  let description :=
    match details.bind (fun td => td.rmt_inf) with
    | some ri => ri.ustrd.getD []
    | none => []
  let rp := details.bind (fun td => td.rltd_pties)
  let counterparty_name :=
    match rp with
    | some p =>
      match p.cdtr with
      | some c => c.nm
      | none => match p.dbtr with | some d => d.nm | none => none
    | none => none
  let acctId := fun (a : AccountXml) =>
    match a.id.iban with
    | some i => some i
    | none => a.id.othr.map (fun o => o.id)
  let counterparty_account :=
    match rp with
    | some p =>
      match p.cdtr_acct with
      | some a => acctId a
      | none => match p.dbtr_acct with | some a => acctId a | none => none
    | none => none
  let ra := details.bind (fun td => td.rltd_agts)
  let bank_identifier :=
    match ra with
    | some ags =>
      match ags.cdtr_agt with
      | some ag => ag.fin_instn_id.bic
      | none =>
        match ags.dbtr_agt with
        | some ag => ag.fin_instn_id.bic
        | none => none
    | none => none
  let additional_info := details.bind (fun td => td.addtl_tx_inf)
  let description :=
    if description = [] then
      match entry.bk_tx_cd with
      | some bk => match bk.prtry with | some p => p.cd | none => []
      | none => []
    else description
  return {
    reference
    date
    value_date
    amount
    currency := entry.amt.ccy.getD default_currency
    debit_credit
    account := none
    counterparty_account
    counterparty_name
    bank_identifier
    description
    additional_info }

/-- The balance loop of `from_document` (src/camt053_format.rs:109). -/
def applyBalances (st : Statement) : List BalanceXml → Except Err Statement
  | [] => .ok st
  | b :: bs =>
    match parse_balance b with
    | .error e => .error e
    | .ok bal =>
      let st2 :=
        match bal.balance_type with
        | .Opening => { st with opening_balance := some bal }
        | .Closing => { st with closing_balance := some bal }
        | _ => st
      applyBalances st2 bs

/-- The entry loop of `from_document` (src/camt053_format.rs:119). -/
def applyEntries (dflt : Str) (now : Date) (st : Statement) :
    List EntryXml → Except Err Statement
  | [] => .ok st
  | e :: es =>
    match parse_entry e dflt now with
    | .error e2 => .error e2
    | .ok t => applyEntries dflt now { st with transactions := st.transactions ++ [t] } es

/-- `Camt053Statement::from_document` (src/camt053_format.rs:78): project
the deserialized tree onto the canonical model. -/
def from_document (doc : Document) (now : Date) : Except Err Statement := do
  let stmt_data := doc.bk_to_cstmr_stmt.stmt
  let statement_id := stmt_data.id
  let account_id :=
    match stmt_data.acct.id.iban with
    | some i => i
    | none =>
      match stmt_data.acct.id.othr with
      | some o => o.id
      | none => "UNKNOWN".toList
  let currency := stmt_data.acct.ccy
  let st0 := { Statement.new statement_id account_id currency with
    sequence_number := stmt_data.elctrnic_seq_nb.map natDigits
    account_holder := stmt_data.acct.nm
    creation_date := stmt_data.cre_dt_tm.bind (fun s => (parse_camt_date s).toOption)
    from_date := (stmt_data.fr_to_dt.bind (fun f => f.fr_dt_tm)).bind
      (fun s => (parse_camt_date s).toOption)
    to_date := (stmt_data.fr_to_dt.bind (fun f => f.to_dt_tm)).bind
      (fun s => (parse_camt_date s).toOption) }
  let st1 ← applyBalances st0 stmt_data.bal
  applyEntries st1.currency now st1 stmt_data.ntry

end Camt053

/-- The per-transaction body of `From<Camt053Statement> for Mt940Statement`
(src/conversion.rs:35): fold `additional_info` and `counterparty_name` into
the description. -/
def convTx (t : Transaction) : Transaction :=
  let d1 :=
    match t.additional_info with
    | some a => (if t.description ≠ [] then t.description ++ " | ".toList else t.description) ++ a
    | none => t.description
  let d2 :=
    match t.counterparty_name with
    | some n =>
      (if d1 ≠ [] then d1 ++ " | ".toList else d1) ++ "Counterparty: ".toList ++ n
    | none => d1
  { t with description := d2 }

/-- `From<Camt053Statement> for Mt940Statement` (src/conversion.rs:27) on
the underlying canonical Statement. -/
def camt053_to_mt940 (s : Statement) : Statement :=
  { s with transactions := s.transactions.map convTx }

instance {ε α : Type} [DecidableEq ε] [DecidableEq α] : DecidableEq (Except ε α) :=
  fun x y =>
    match x, y with
    | .ok a, .ok b =>
      if h : a = b then isTrue (by rw [h]) else isFalse (fun hc => h (Except.ok.inj hc))
    | .error a, .error b =>
      if h : a = b then isTrue (by rw [h]) else isFalse (fun hc => h (Except.error.inj hc))
    | .ok _, .error _ => isFalse (fun hc => Except.noConfusion hc)
    | .error _, .ok _ => isFalse (fun hc => Except.noConfusion hc)

theorem isDigitCh_bounds {c : Char} (h : isDigitCh c = true) :
    48 ≤ c.toNat ∧ c.toNat ≤ 57 := by
  simpa [isDigitCh] using h

theorem char_ne_of_toNat_ne {c d : Char} (h : c.toNat ≠ d.toNat) : c ≠ d :=
  fun he => h (by rw [he])

theorem digit_not_alpha {c : Char} (h : isDigitCh c = true) : isAlphaCh c = false := by
  have hb := isDigitCh_bounds h
  simp only [isAlphaCh, decide_eq_false_iff_not]
  omega

theorem digit_not_ws {c : Char} (h : isDigitCh c = true) : isWs c = false := by
  have h1 : c ≠ ' ' := fun he => absurd (he ▸ h) (by decide)
  have h2 : c ≠ '\t' := fun he => absurd (he ▸ h) (by decide)
  have h3 : c ≠ '\r' := fun he => absurd (he ▸ h) (by decide)
  have h4 : c ≠ '\n' := fun he => absurd (he ▸ h) (by decide)
  simp [isWs, h1, h2, h3, h4]

theorem digit_ne_dot {c : Char} (h : isDigitCh c = true) : c ≠ '.' :=
  fun he => absurd (he ▸ h) (by decide)

theorem digit_ne_comma {c : Char} (h : isDigitCh c = true) : c ≠ ',' :=
  fun he => absurd (he ▸ h) (by decide)

theorem digit_ne_colon {c : Char} (h : isDigitCh c = true) : c ≠ ':' :=
  fun he => absurd (he ▸ h) (by decide)

theorem digit_ne_slash {c : Char} (h : isDigitCh c = true) : c ≠ '/' :=
  fun he => absurd (he ▸ h) (by decide)

theorem digit_ne_nl {c : Char} (h : isDigitCh c = true) : c ≠ '\n' :=
  fun he => absurd (he ▸ h) (by decide)

theorem digit_ne_cr {c : Char} (h : isDigitCh c = true) : c ≠ '\r' :=
  fun he => absurd (he ▸ h) (by decide)

theorem digit_ne_plus {c : Char} (h : isDigitCh c = true) : c ≠ '+' :=
  fun he => absurd (he ▸ h) (by decide)

theorem digit_ne_minus {c : Char} (h : isDigitCh c = true) : c ≠ '-' :=
  fun he => absurd (he ▸ h) (by decide)

theorem digitChar_toNat {n : Nat} (h : n < 10) : (digitChar n).toNat = 48 + n := by
  interval_cases n <;> decide

theorem digitChar_isDigit {n : Nat} (h : n < 10) : isDigitCh (digitChar n) = true := by
  simp [isDigitCh, digitChar_toNat h]; omega

theorem natDigitsAux_all_digits : ∀ (f n : Nat),
    (natDigitsAux f n).all isDigitCh = true := by
  intro f
  induction f with
  | zero => intro n; simp [natDigitsAux]
  | succ f ih =>
    intro n
    simp only [natDigitsAux]
    split
    · next h => simp [digitChar_isDigit h]
    · next h =>
      simp only [List.all_append]
      have h10 : n % 10 < 10 := Nat.mod_lt _ (by omega)
      simp [ih (n / 10), digitChar_isDigit h10]

theorem natDigitsAux_ne_nil : ∀ (f n : Nat), 0 < f → natDigitsAux f n ≠ [] := by
  intro f n hf
  match f, hf with
  | f + 1, _ =>
    simp only [natDigitsAux]
    split
    · simp
    · simp

theorem digitsVal_foldl_init : ∀ (b : List Char) (a0 : Nat),
    b.foldl (fun a c => 10 * a + (c.toNat - 48)) a0
      = a0 * 10 ^ b.length + digitsVal b := by
  intro b
  induction b with
  | nil => intro a0; simp [digitsVal]
  | cons c b ih =>
    intro a0
    simp only [List.foldl_cons, digitsVal]
    rw [ih, ih (10 * 0 + (c.toNat - 48))]
    simp [List.length_cons, Nat.pow_succ]
    ring

theorem digitsVal_append (a b : List Char) :
    digitsVal (a ++ b) = digitsVal a * 10 ^ b.length + digitsVal b := by
  simp only [digitsVal, List.foldl_append]
  rw [digitsVal_foldl_init b (List.foldl (fun a c => 10 * a + (c.toNat - 48)) 0 a)]
  rfl

theorem digitsVal_singleton (c : Char) : digitsVal [c] = c.toNat - 48 := by
  simp [digitsVal]

theorem natDigitsAux_val : ∀ (n f : Nat), n < f → digitsVal (natDigitsAux f n) = n := by
  intro n
  induction n using Nat.strongRecOn with
  | _ n ih =>
    intro f hf
    match f, hf with
    | f + 1, _ =>
      simp only [natDigitsAux]
      split
      · next h =>
        rw [digitsVal_singleton, digitChar_toNat h]
        omega
      · next h =>
        rw [digitsVal_append, digitsVal_singleton, digitChar_toNat (Nat.mod_lt _ (by omega))]
        have hd : n / 10 < n := Nat.div_lt_self (by omega) (by omega)
        rw [ih (n / 10) hd f (by omega)]
        simp only [List.length_cons, List.length_nil, Nat.zero_add, pow_one]
        omega

theorem natDigits_val (n : Nat) : digitsVal (natDigits n) = n :=
  natDigitsAux_val n (n + 1) (Nat.lt_succ_self n)

theorem natDigits_all_digits (n : Nat) : (natDigits n).all isDigitCh = true :=
  natDigitsAux_all_digits (n + 1) n

theorem natDigits_ne_nil (n : Nat) : natDigits n ≠ [] :=
  natDigitsAux_ne_nil (n + 1) n (Nat.succ_pos n)

theorem natDigitsAux_congr : ∀ (n f g : Nat), n < f → n < g →
    natDigitsAux f n = natDigitsAux g n := by
  intro n
  induction n using Nat.strongRecOn with
  | _ n ih =>
    intro f g hf hg
    match f, g, hf, hg with
    | f + 1, g + 1, _, _ =>
      simp only [natDigitsAux]
      split
      · rfl
      · next h =>
        have hd : n / 10 < n := Nat.div_lt_self (by omega) (by omega)
        rw [ih (n / 10) hd f g (by omega) (by omega)]

theorem natDigitsAux_length_le : ∀ (n k f : Nat), n < 10 ^ k → 0 < k →
    (natDigitsAux f n).length ≤ k := by
  intro n
  induction n using Nat.strongRecOn with
  | _ n ih =>
    intro k f hn hk
    match f with
    | 0 => simp [natDigitsAux]
    | f + 1 =>
      simp only [natDigitsAux]
      split
      · simp; omega
      · next h =>
        have hk2 : 2 ≤ k := by
          by_contra hlt
          have hk1 : k = 1 := by omega
          subst hk1
          simp at hn
          omega
        have hd : n / 10 < n := Nat.div_lt_self (by omega) (by omega)
        have hbound : n / 10 < 10 ^ (k - 1) := by
          have h2 : n < 10 ^ (k - 1) * 10 := by
            have hke : 10 ^ k = 10 ^ (k - 1) * 10 := by
              have hk3 : k = (k - 1) + 1 := by omega
              rw [hk3]
              simp [Nat.pow_succ]
            omega
          omega
        have hrec := ih (n / 10) hd (k - 1) f hbound (by omega)
        simp only [List.length_append, List.length_cons, List.length_nil]
        omega

theorem natDigits_length_le {n k : Nat} (hn : n < 10 ^ k) (hk : 0 < k) :
    (natDigits n).length ≤ k :=
  natDigitsAux_length_le n k (n + 1) hn hk

theorem natDigits_small {n : Nat} (h : n < 10) : natDigits n = [digitChar n] := by
  simp [natDigits, natDigitsAux, h]

theorem natDigits_two_digits {n : Nat} (h1 : 10 ≤ n) (h2 : n ≤ 99) :
    natDigits n = [digitChar (n / 10), digitChar (n % 10)] := by
  have hd : n / 10 < 10 := by omega
  have hge : ¬ n < 10 := by omega
  simp only [natDigits, natDigitsAux, hge, if_false]
  rw [natDigitsAux_congr (n / 10) n (n / 10 + 1) (by omega) (by omega)]
  simp [natDigitsAux, hd]

theorem pad2_length {n : Nat} (h : n ≤ 99) : (pad2 n).length = 2 := by
  by_cases h10 : n < 10
  · simp [pad2, h10, natDigits_small h10]
  · simp [pad2, h10, natDigits_two_digits (by omega) h]

theorem pad2_all_digits (n : Nat) : (pad2 n).all isDigitCh = true := by
  by_cases h10 : n < 10
  · simp [pad2, h10, natDigits_all_digits]
    decide
  · simp [pad2, h10, natDigits_all_digits]

theorem pad2_val {n : Nat} (h : n ≤ 99) : digitsVal (pad2 n) = n := by
  by_cases h10 : n < 10
  · simp only [pad2, h10, if_true]
    have : ('0' :: natDigits n) = ['0'] ++ natDigits n := rfl
    rw [this, digitsVal_append, natDigits_val]
    simp [digitsVal_singleton, natDigits_small h10]
  · simp [pad2, h10, natDigits_val]

theorem all_mem_digits {l : Str} (h : l.all isDigitCh = true) :
    ∀ c ∈ l, isDigitCh c = true := by
  rw [List.all_eq_true] at h
  exact fun c hc => h c hc

theorem head_not_sign {l : Str} (hall : l.all isDigitCh = true) :
    l.head? ≠ some '-' ∧ l.head? ≠ some '+' := by
  cases l with
  | nil => simp
  | cons c t =>
    simp only [List.all_cons, Bool.and_eq_true] at hall
    constructor
    · simp only [List.head?_cons]
      intro he
      injection he with he2
      exact digit_ne_minus hall.1 he2
    · simp only [List.head?_cons]
      intro he
      injection he with he2
      exact digit_ne_plus hall.1 he2

theorem parseNatChars_digits {l : Str} (h1 : l ≠ []) (h2 : l.all isDigitCh = true) :
    parseNatChars l = some (digitsVal l) := by
  simp only [parseNatChars]
  rw [if_neg (head_not_sign h2).2]
  simp [h1, h2]

theorem parseIntChars_digits {l : Str} (h1 : l ≠ []) (h2 : l.all isDigitCh = true) :
    parseIntChars l = some ((digitsVal l : Nat) : Int) := by
  simp only [parseIntChars]
  rw [if_neg (head_not_sign h2).1, parseNatChars_digits h1 h2]
  rfl

theorem take_len_append (a b : List Char) : (a ++ b).take a.length = a := by
  simp

theorem drop_len_append (a b : List Char) : (a ++ b).drop a.length = b := by
  simp

theorem getFrom_append {a b : List Char} {n : Nat} (h : a.length = n) :
    getFrom (a ++ b) n = some b := by
  subst h
  simp [getFrom, drop_len_append]

theorem getRange_append_mid {a b c : List Char} {i j : Nat}
    (hi : a.length = i) (hj : i + b.length = j) :
    getRange (a ++ b ++ c) i j = some b := by
  subst hi
  subst hj
  have hle : a.length + b.length ≤ (a ++ b ++ c).length := by
    simp
  simp only [getRange, hle, and_true, if_pos (by omega : a.length ≤ a.length + b.length)]
  have htake : (a ++ b ++ c).take (a.length + b.length) = a ++ b := by
    have hl : (a ++ b).length = a.length + b.length := by simp
    rw [List.append_assoc]
    rw [← hl, ← List.append_assoc]
    exact take_len_append (a ++ b) c
  rw [htake, drop_len_append]

theorem get_append_right {a b : List Char} {i : Nat} (h : a.length = i) :
    (a ++ b).get? i = b.get? 0 := by
  subst h
  rw [List.get?_append_right (Nat.le_refl _)]
  simp

theorem splitOnDot_no_dot {l : Str} (h : ∀ c ∈ l, c ≠ '.') : splitOnDot l = [l] := by
  induction l with
  | nil => rfl
  | cons c t ih =>
    simp only [splitOnDot]
    rw [if_neg (h c (by simp))]
    rw [ih (fun x hx => h x (by simp [hx]))]

theorem splitOnDot_mid {a b : Str} (ha : ∀ c ∈ a, c ≠ '.') (hb : ∀ c ∈ b, c ≠ '.') :
    splitOnDot (a ++ '.' :: b) = [a, b] := by
  induction a with
  | nil =>
    simp [splitOnDot, splitOnDot_no_dot hb]
  | cons c t ih =>
    have hstep : splitOnDot (c :: (t ++ '.' :: b)) =
        (if c = '.' then [] :: splitOnDot (t ++ '.' :: b)
         else
           match splitOnDot (t ++ '.' :: b) with
           | [] => [[c]]
           | p :: ps => (c :: p) :: ps) := rfl
    rw [List.cons_append, hstep, if_neg (ha c (by simp)),
      ih (fun x hx => ha x (by simp [hx]))]

theorem digitsVal_repl_zeros (k : Nat) (ds : Str) :
    digitsVal (List.replicate k '0' ++ ds) = digitsVal ds := by
  rw [digitsVal_append]
  have hz : digitsVal (List.replicate k '0') = 0 := by
    induction k with
    | zero => rfl
    | succ k ih =>
      have : List.replicate (k + 1) '0' = '0' :: List.replicate k '0' := rfl
      rw [this]
      simp only [digitsVal, List.foldl_cons]
      have h0 : (10 * 0 + ('0'.toNat - 48)) = 0 := by decide
      rw [h0]
      exact ih
  rw [hz]
  simp

theorem padLeftZeros_length {k : Nat} {ds : Str} (h : ds.length ≤ k) :
    (padLeftZeros k ds).length = k := by
  simp [padLeftZeros]
  omega

theorem padLeftZeros_all_digits {k : Nat} {ds : Str} (h : ds.all isDigitCh = true) :
    (padLeftZeros k ds).all isDigitCh = true := by
  simp only [padLeftZeros, List.all_append, Bool.and_eq_true]
  refine ⟨?_, h⟩
  rw [List.all_eq_true]
  intro c hc
  rw [List.eq_of_mem_replicate hc]
  decide

theorem padLeftZeros_val (k : Nat) (ds : Str) :
    digitsVal (padLeftZeros k ds) = digitsVal ds :=
  digitsVal_repl_zeros _ _

theorem head_append_of_ne_nil {a b : List Char} (h : a ≠ []) :
    (a ++ b).head? = a.head? := by
  cases a with
  | nil => exact absurd rfl h
  | cons c t => simp

theorem mantissa_natAbs {d : Decimal} (h0 : 0 ≤ d.mantissa) :
    (d.mantissa.natAbs : Int) = d.mantissa :=
  Int.natAbs_of_nonneg h0

theorem Decimal.fromChars_toChars {d : Decimal} (h0 : 0 ≤ d.mantissa)
    (h96 : d.mantissa < 2 ^ 96) (h28 : d.scale ≤ 28) :
    Decimal.fromChars d.toChars = some d := by
  set m := d.mantissa.natAbs with hm
  have hmi : (m : Int) = d.mantissa := mantissa_natAbs h0
  have hm96 : (m : Int) < 2 ^ 96 := by rw [hmi]; exact h96
  by_cases hs : d.scale = 0
  · have hbody : d.toChars = natDigits m := by
      simp [Decimal.toChars, hs, not_lt.mpr h0, ← hm]
    rw [hbody]
    have hall := natDigits_all_digits m
    have hne := natDigits_ne_nil m
    simp only [Decimal.fromChars]
    rw [if_neg (head_not_sign hall).1, if_neg (head_not_sign hall).2]
    rw [splitOnDot_no_dot (fun c hc => digit_ne_dot (all_mem_digits hall c hc))]
    dsimp only
    rw [if_pos ⟨hne, hall, by rw [natDigits_val]; exact hm96⟩]
    rw [natDigits_val]
    congr 1
    cases d with
    | mk mm ss =>
      simp only at hs hmi
      simp [hs, ← hmi]
  · set q := m / 10 ^ d.scale with hq
    set r := m % 10 ^ d.scale with hr
    set fp := padLeftZeros d.scale (natDigits r) with hfp
    have hbody : d.toChars = natDigits q ++ '.' :: fp := by
      simp [Decimal.toChars, hs, not_lt.mpr h0, ← hm, ← hq, ← hr, ← hfp]
    rw [hbody]
    have hallq := natDigits_all_digits q
    have hneq := natDigits_ne_nil q
    have hallfp : fp.all isDigitCh = true :=
      padLeftZeros_all_digits (natDigits_all_digits r)
    have hrlt : r < 10 ^ d.scale := Nat.mod_lt _ (Nat.pos_pow_of_pos _ (by omega))
    have hfplen : fp.length = d.scale :=
      padLeftZeros_length (natDigits_length_le hrlt (by omega))
    simp only [Decimal.fromChars]
    rw [if_neg (by rw [head_append_of_ne_nil hneq]; exact (head_not_sign hallq).1)]
    rw [if_neg (by rw [head_append_of_ne_nil hneq]; exact (head_not_sign hallq).2)]
    rw [splitOnDot_mid (fun c hc => digit_ne_dot (all_mem_digits hallq c hc))
      (fun c hc => digit_ne_dot (all_mem_digits hallfp c hc))]
    dsimp only
    have hval : digitsVal (natDigits q ++ fp) = m := by
      rw [digitsVal_append, natDigits_val, hfplen, hfp, padLeftZeros_val, natDigits_val]
      rw [hq, hr]
      have hdm := Nat.div_add_mod m (10 ^ d.scale)
      rw [Nat.mul_comm (10 ^ d.scale) (m / 10 ^ d.scale)] at hdm
      exact hdm
    rw [if_pos ⟨Or.inl hneq, hallq, hallfp, by rw [hfplen]; exact h28,
      by rw [hval]; exact hm96⟩]
    rw [hval, hfplen]
    congr 1
    cases d with
    | mk mm ss =>
      simp only at hmi
      simp [← hmi]

theorem okOr_some {α : Type} (a : α) (e : Err) : okOr (some a) e = .ok a := rfl

theorem okOr_none {α : Type} (e : Err) : okOr (none : Option α) e = .error e := rfl

theorem getRange_left {x y : List Char} {n : Nat} (h : x.length = n) :
    getRange (x ++ y) 0 n = some x := by
  have hmid := getRange_append_mid (a := ([] : List Char)) (b := x) (c := y) rfl
    (by simpa using h)
  simpa using hmid

theorem getRange_right {x y : List Char} {i j : Nat} (hi : x.length = i)
    (hj : i + y.length = j) : getRange (x ++ y) i j = some y := by
  have hmid := getRange_append_mid (a := x) (b := y) (c := ([] : List Char)) hi hj
  simpa using hmid

/-- The canonical-model validity of a `Date` value (`from_ymd_opt` succeeds). -/
def validDate (d : Date) : Prop :=
  1 ≤ d.month ∧ d.month ≤ 12 ∧ 1 ≤ d.day ∧ d.day ≤ daysInMonth d.year d.month

instance (d : Date) : Decidable (validDate d) := by
  unfold validDate
  infer_instance

theorem fromYmdOpt_self {d : Date} (h : validDate d) :
    fromYmdOpt d.year d.month d.day = some d := by
  cases d with
  | mk y m dd =>
    obtain ⟨h1, h2, h3, h4⟩ := h
    simp only at h1 h2 h3 h4
    simp [fromYmdOpt, h1, h2, h3, h4]

theorem daysInMonth_le (y : Int) (m : Nat) : daysInMonth y m ≤ 31 := by
  unfold daysInMonth
  split
  · omega
  · split
    · omega
    · split
      · split <;> omega
      · omega

theorem pad2_ne_nil (n : Nat) : pad2 n ≠ [] := by
  by_cases h10 : n < 10
  · simp [pad2, h10]
  · simp [pad2, h10, natDigits_ne_nil]

theorem mt940_date_roundtrip {d : Date} (hv : validDate d)
    (h1 : 1950 ≤ d.year) (h2 : d.year ≤ 2049) :
    Mt940.parse_mt940_date (Mt940.format_mt940_date d) = .ok d := by
  have hmod0 : 0 ≤ d.year % 100 := Int.emod_nonneg _ (by norm_num)
  have hmod1 : d.year % 100 < 100 := Int.emod_lt_of_pos _ (by norm_num)
  set a := (d.year % 100).toNat with ha
  have ha99 : a ≤ 99 := by omega
  have hm99 : d.month ≤ 99 := by
    obtain ⟨_, hm, _, _⟩ := hv
    omega
  have hd99 : d.day ≤ 99 := by
    obtain ⟨_, _, _, hd⟩ := hv
    have := daysInMonth_le d.year d.month
    omega
  have hfmt : Mt940.format_mt940_date d = pad2 a ++ pad2 d.month ++ pad2 d.day := rfl
  rw [hfmt]
  have hlen : (pad2 a ++ pad2 d.month ++ pad2 d.day).length = 6 := by
    simp [pad2_length ha99, pad2_length hm99, pad2_length hd99]
  simp only [Mt940.parse_mt940_date, hlen]
  rw [if_neg (by omega)]
  have hr1 : getRange (pad2 a ++ pad2 d.month ++ pad2 d.day) 0 2
      = some (pad2 a) := by
    rw [List.append_assoc]
    exact getRange_left (pad2_length ha99)
  have hr2 : getRange (pad2 a ++ pad2 d.month ++ pad2 d.day) 2 4
      = some (pad2 d.month) :=
    getRange_append_mid (pad2_length ha99) (by rw [pad2_length hm99])
  have hr3 : getRange (pad2 a ++ pad2 d.month ++ pad2 d.day) 4 6
      = some (pad2 d.day) :=
    getRange_right (by simp [pad2_length ha99, pad2_length hm99])
      (by rw [pad2_length hd99])
  rw [hr1, hr2, hr3]
  simp only [Option.some_bind]
  rw [parseIntChars_digits (pad2_ne_nil a) (pad2_all_digits a),
    parseNatChars_digits (pad2_ne_nil d.month) (pad2_all_digits d.month),
    parseNatChars_digits (pad2_ne_nil d.day) (pad2_all_digits d.day)]
  rw [pad2_val ha99, pad2_val hm99, pad2_val hd99]
  have hfull : (if ((a : Nat) : Int) < 50 then 2000 + (a : Int) else 1900 + (a : Int))
      = d.year := by
    omega
  simp only [hfull]
  rw [fromYmdOpt_self hv]
  rfl

theorem mt940_entry_date_roundtrip {d : Date} (hv : validDate d) :
    Mt940.parse_mt940_entry_date (pad2 d.month ++ pad2 d.day) d.year = .ok d := by
  have hm99 : d.month ≤ 99 := by
    obtain ⟨_, hm, _, _⟩ := hv
    omega
  have hd99 : d.day ≤ 99 := by
    obtain ⟨_, _, _, hd⟩ := hv
    have := daysInMonth_le d.year d.month
    omega
  have hlen : (pad2 d.month ++ pad2 d.day).length = 4 := by
    simp [pad2_length hm99, pad2_length hd99]
  simp only [Mt940.parse_mt940_entry_date, hlen]
  rw [if_neg (by omega)]
  rw [getRange_left (pad2_length hm99),
    getRange_right (pad2_length hm99) (by rw [pad2_length hd99])]
  simp only [Option.some_bind]
  rw [parseNatChars_digits (pad2_ne_nil d.month) (pad2_all_digits d.month),
    parseNatChars_digits (pad2_ne_nil d.day) (pad2_all_digits d.day)]
  rw [pad2_val hm99, pad2_val hd99]
  dsimp only
  rw [fromYmdOpt_self hv]
  rfl

/-- Whether a string contains the `//` separator the Line codec splits on. -/
def hasDslash : Str → Bool
  | [] => false
  | [_] => false
  | c1 :: c2 :: rest => (c1 = '/' ∧ c2 = '/') ∨ hasDslash (c2 :: rest)

/-- A string free of line breaks (representable on one serialized line). -/
def lineSafe (s : Str) : Prop := ∀ c ∈ s, c ≠ '\n' ∧ c ≠ '\r'

/-- A `Decimal` within `rust_decimal`'s range, with the non-negative
magnitude the canonical model requires of amounts. -/
def validAmount (a : Decimal) : Prop :=
  0 ≤ a.mantissa ∧ a.mantissa < 2 ^ 96 ∧ a.scale ≤ 28

/-- A calendar-valid date within the Line format's two-digit-year pivot
window (1950..2049), the only dates its YYMMDD fields can round-trip. -/
def windowOk (d : Date) : Prop := validDate d ∧ 1950 ≤ d.year ∧ d.year ≤ 2049

/-- Representability of one transaction in the Line format: currency equal
to the statement currency, in-range amount, pivot-window dates, a value
date in the booking date's year, a trimmed non-empty reference without `//`,
and a trimmed single-line description. -/
def validTx (ccy : Str) (t : Transaction) : Prop :=
  t.currency = ccy ∧
  validAmount t.amount ∧
  windowOk t.date ∧
  (∃ vd, t.value_date = some vd ∧ windowOk vd ∧ vd.year = t.date.year) ∧
  t.reference ≠ [] ∧ trimChars t.reference = t.reference ∧
  hasDslash t.reference = false ∧ lineSafe t.reference ∧
  trimChars t.description = t.description ∧ lineSafe t.description

/-- Representability of a balance on a `:60x:`/`:62x:` line: the expected
balance type, the statement currency as exactly three line-safe characters,
an in-range amount and a pivot-window date. -/
def validBalance (bt : BalanceType) (ccy : Str) (b : Balance) : Prop :=
  b.balance_type = bt ∧ b.currency = ccy ∧ b.currency.length = 3 ∧
  lineSafe b.currency ∧ validAmount b.amount ∧ windowOk b.date

/-- Representability of a whole Statement in the Line format.  Beyond the
spec's non-empty `statement_id`/`account`, this pins down the conditions
under which the fixed-offset serialization is parseable back: trimmed
line-safe header fields, an opening balance carrying the statement
currency, representable balances and transactions, and — because the
serializer's `-}` trailer does not start with `:` and would be absorbed as
a `:86:` continuation — a closing balance whenever the last transaction
has a description. -/
def ValidMt940 (s : Statement) : Prop :=
  s.statement_id ≠ [] ∧ trimChars s.statement_id = s.statement_id ∧
    lineSafe s.statement_id ∧
  s.account ≠ [] ∧ trimChars s.account = s.account ∧ lineSafe s.account ∧
  (∀ sq, s.sequence_number = some sq → trimChars sq = sq ∧ lineSafe sq) ∧
  (∃ ob, s.opening_balance = some ob ∧ validBalance .Opening s.currency ob) ∧
  (∀ cb, s.closing_balance = some cb → validBalance .Closing s.currency cb) ∧
  (∀ t ∈ s.transactions, validTx s.currency t) ∧
  (match s.transactions.getLast? with
   | some t => t.description = [] ∨ s.closing_balance ≠ none
   | none => True)

/-- Equality of two transactions on the fields the Line format natively
carries: reference, dates, amount, currency, D/C indicator, description. -/
def txCarried (t u : Transaction) : Prop :=
  t.reference = u.reference ∧ t.date = u.date ∧ t.value_date = u.value_date ∧
  t.amount = u.amount ∧ t.currency = u.currency ∧
  t.debit_credit = u.debit_credit ∧ t.description = u.description

/-- Equality of two statements on the fields the Line format natively
carries: identifiers, sequence number, both balances, currency, and the
transaction sequence in order on its carried fields. -/
def eqCarried (a b : Statement) : Prop :=
  a.statement_id = b.statement_id ∧ a.account = b.account ∧
  a.sequence_number = b.sequence_number ∧
  a.opening_balance = b.opening_balance ∧
  a.closing_balance = b.closing_balance ∧
  a.currency = b.currency ∧
  List.Forall₂ txCarried a.transactions b.transactions

theorem replComma_replDot {s : Str} (h : ∀ c ∈ s, c ≠ ',') :
    replComma (replDot s) = s := by
  induction s with
  | nil => rfl
  | cons c t ih =>
    simp only [replDot, replComma, List.map_cons] at *
    rw [ih (fun x hx => h x (by simp [hx]))]
    by_cases hc : c = '.'
    · simp [hc]
    · rw [if_neg hc, if_neg (h c (by simp))]

theorem toChars_mem {a : Decimal} (h0 : 0 ≤ a.mantissa) :
    ∀ c ∈ a.toChars, isDigitCh c = true ∨ c = '.' := by
  intro c hc
  simp only [Decimal.toChars, if_neg (not_lt.mpr h0)] at hc
  by_cases hs : a.scale = 0
  · rw [if_pos hs] at hc
    exact Or.inl (all_mem_digits (natDigits_all_digits _) c hc)
  · rw [if_neg hs] at hc
    rcases List.mem_append.mp hc with h1 | h2
    · exact Or.inl (all_mem_digits (natDigits_all_digits _) c h1)
    · rcases List.mem_cons.mp h2 with h3 | h4
      · exact Or.inr h3
      · exact Or.inl (all_mem_digits (padLeftZeros_all_digits (natDigits_all_digits _)) c h4)

theorem toChars_no_comma {a : Decimal} (h0 : 0 ≤ a.mantissa) :
    ∀ c ∈ a.toChars, c ≠ ',' := by
  intro c hc
  rcases toChars_mem h0 c hc with hd | hd
  · exact digit_ne_comma hd
  · rw [hd]
    decide

theorem amount_serial_roundtrip {a : Decimal} (hv : validAmount a) :
    Decimal.fromChars (replComma (replDot a.toChars)) = some a := by
  rw [replComma_replDot (toChars_no_comma hv.1)]
  exact Decimal.fromChars_toChars hv.1 hv.2.1 hv.2.2

theorem replDot_amount_not_alpha {a : Decimal} (h0 : 0 ≤ a.mantissa) :
    ∀ c ∈ replDot a.toChars, isAlphaCh c = false := by
  intro c hc
  simp only [replDot, List.mem_map] at hc
  obtain ⟨c0, hc0, hmap⟩ := hc
  rcases toChars_mem h0 c0 hc0 with hd | hd
  · rw [← hmap, if_neg (digit_ne_dot hd)]
    exact digit_not_alpha hd
  · rw [← hmap, if_pos hd]
    decide

theorem toChars_ne_nil (a : Decimal) : a.toChars ≠ [] := by
  simp only [Decimal.toChars]
  split
  · split
    · simp [natDigits_ne_nil]
    · simp
  · split
    · simp [natDigits_ne_nil]
    · simp

theorem firstAlphaIdx_append {a b : Str} (h : ∀ c ∈ a, isAlphaCh c = false) :
    firstAlphaIdx (a ++ b) = a.length + firstAlphaIdx b := by
  induction a with
  | nil => simp
  | cons c t ih =>
    have hc : isAlphaCh c = false := h c (by simp)
    simp [List.cons_append, firstAlphaIdx, hc, ih (fun x hx => h x (by simp [hx]))]
    omega

theorem splitDslashAux_no : ∀ (s : Str), hasDslash s = false → ∀ acc,
    splitDslashAux acc s = [acc.reverse ++ s]
  | [], _, acc => by simp [splitDslashAux]
  | [c], _, acc => by
    simp [splitDslashAux, List.reverse_cons]
  | c1 :: c2 :: rest, h, acc => by
    simp only [hasDslash, Bool.decide_or, Bool.or_eq_false_iff, decide_eq_false_iff_not] at h
    simp only [splitDslashAux, if_neg h.1]
    rw [splitDslashAux_no (c2 :: rest) (by simpa using h.2) (c1 :: acc)]
    simp

theorem splitDslash_ntrf {ref : Str} (h : hasDslash ref = false) :
    splitDslash ("NTRF//".toList ++ ref) = ["NTRF".toList, ref] := by
  have hshow : "NTRF//".toList ++ ref
      = 'N' :: 'T' :: 'R' :: 'F' :: '/' :: '/' :: ref := rfl
  rw [splitDslash, hshow]
  simp only [splitDslashAux, if_neg (by decide : ¬('N' = '/' ∧ 'T' = '/')),
    if_neg (by decide : ¬('T' = '/' ∧ 'R' = '/')),
    if_neg (by decide : ¬('R' = '/' ∧ 'F' = '/')),
    if_neg (by decide : ¬('F' = '/' ∧ '/' = '/'))]
  rw [show ('F' :: 'R' :: 'T' :: 'N' :: [] : Str) = "FRTN".toList from rfl]
  rw [splitDslashAux_no ref h []]
  rfl

theorem getRange_mid2 {p q r : List Char} {i j : Nat} (hi : p.length = i)
    (hj : i + q.length = j) : getRange (p ++ (q ++ r)) i j = some q := by
  rw [← List.append_assoc]
  exact getRange_append_mid hi hj

theorem dc_toChars_length (x : DebitCredit) : (DebitCredit.toChars x).length = 1 := by
  cases x <;> rfl

theorem dc_fromChars_toChars (x : DebitCredit) :
    DebitCredit.fromChars (DebitCredit.toChars x) = some x := by
  cases x <;> decide

theorem dc_singleton (x : DebitCredit) :
    ∃ ch, DebitCredit.toChars x = [ch] ∧ DebitCredit.fromChars [ch] = some x := by
  cases x with
  | Debit => exact ⟨'D', rfl, by decide⟩
  | Credit => exact ⟨'C', rfl, by decide⟩

theorem format_mt940_date_length {d : Date} (hv : validDate d) :
    (Mt940.format_mt940_date d).length = 6 := by
  have hmod0 : 0 ≤ d.year % 100 := Int.emod_nonneg _ (by norm_num)
  have hmod1 : d.year % 100 < 100 := Int.emod_lt_of_pos _ (by norm_num)
  have ha99 : (d.year % 100).toNat ≤ 99 := by omega
  have hm99 : d.month ≤ 99 := by
    obtain ⟨_, hm, _, _⟩ := hv
    omega
  have hd99 : d.day ≤ 99 := by
    obtain ⟨_, _, _, hd⟩ := hv
    have := daysInMonth_le d.year d.month
    omega
  simp [Mt940.format_mt940_date, pad2_length ha99, pad2_length hm99, pad2_length hd99]

theorem replDot_length (s : Str) : (replDot s).length = s.length := by
  simp [replDot]

theorem exists_head_digit {l : Str} (hne : l ≠ []) (hall : l.all isDigitCh = true) :
    ∃ c rest2, l = c :: rest2 ∧ isDigitCh c = true := by
  cases l with
  | nil => exact absurd rfl hne
  | cons c t =>
    refine ⟨c, t, rfl, ?_⟩
    simp only [List.all_cons, Bool.and_eq_true] at hall
    exact hall.1

theorem get?_zero_append {a b : List Char} (h : a ≠ []) :
    (a ++ b).get? 0 = a.get? 0 := by
  cases a with
  | nil => exact absurd rfl h
  | cons c t => rfl

theorem parse_serBalance_60 {ccy : Str} {b : Balance}
    (hv : validBalance .Opening ccy b) :
    Mt940.parse_balance (Mt940.serBalanceLine ":60".toList true b) .Opening = .ok b := by
  obtain ⟨hbt, hccy, hlen3, hsafe, hamt, hwin⟩ := hv
  have hline : Mt940.serBalanceLine ":60".toList true b
      = ":60F:".toList ++ (b.debit_credit.toChars ++ (Mt940.format_mt940_date b.date
          ++ (b.currency ++ replDot b.amount.toChars))) := by
    have h1 : ":60".toList = [':', '6', '0'] := rfl
    have h2 : ":60F:".toList = [':', '6', '0', 'F', ':'] := rfl
    simp [Mt940.serBalanceLine, h1, h2, List.append_assoc]
  rw [hline]
  have hsw : startsWithStr (":60F:".toList ++ (b.debit_credit.toChars
      ++ (Mt940.format_mt940_date b.date ++ (b.currency ++ replDot b.amount.toChars))))
      ":60".toList = true := rfl
  simp only [Mt940.parse_balance, hsw, if_true]
  rw [getFrom_append (by decide : (":60F:".toList).length = 5)]
  have hdclen := dc_toChars_length b.debit_credit
  have hf6len := format_mt940_date_length hwin.1
  have hamtlen : 1 ≤ (replDot b.amount.toChars).length := by
    rw [replDot_length]
    exact List.length_pos.mpr (toChars_ne_nil b.amount)
  have hclen : (b.debit_credit.toChars ++ (Mt940.format_mt940_date b.date
      ++ (b.currency ++ replDot b.amount.toChars))).length
      = 10 + (replDot b.amount.toChars).length := by
    simp [hdclen, hf6len, hlen3]
    omega
  dsimp only
  rw [if_neg (by omega)]
  have hr0 : getRange (b.debit_credit.toChars ++ (Mt940.format_mt940_date b.date
      ++ (b.currency ++ replDot b.amount.toChars))) 0 1
      = some b.debit_credit.toChars :=
    getRange_left hdclen
  rw [hr0]
  rw [show (some b.debit_credit.toChars).getD [] = b.debit_credit.toChars from rfl,
    dc_fromChars_toChars]
  dsimp only
  have hr1 : getRange (b.debit_credit.toChars ++ (Mt940.format_mt940_date b.date
      ++ (b.currency ++ replDot b.amount.toChars))) 1 7
      = some (Mt940.format_mt940_date b.date) :=
    getRange_mid2 hdclen (by omega)
  rw [hr1]
  dsimp only
  rw [mt940_date_roundtrip hwin.1 hwin.2.1 hwin.2.2]
  dsimp only
  have hassoc : b.debit_credit.toChars ++ (Mt940.format_mt940_date b.date
      ++ (b.currency ++ replDot b.amount.toChars))
      = (b.debit_credit.toChars ++ Mt940.format_mt940_date b.date)
        ++ (b.currency ++ replDot b.amount.toChars) := by
    simp [List.append_assoc]
  have hr2 : getRange (b.debit_credit.toChars ++ (Mt940.format_mt940_date b.date
      ++ (b.currency ++ replDot b.amount.toChars))) 7 10 = some b.currency := by
    rw [hassoc]
    exact getRange_mid2 (by simp [hdclen, hf6len]) (by omega)
  rw [hr2]
  dsimp only
  have hassoc2 : b.debit_credit.toChars ++ (Mt940.format_mt940_date b.date
      ++ (b.currency ++ replDot b.amount.toChars))
      = ((b.debit_credit.toChars ++ Mt940.format_mt940_date b.date) ++ b.currency)
        ++ replDot b.amount.toChars := by
    simp [List.append_assoc]
  have hr3 : getFrom (b.debit_credit.toChars ++ (Mt940.format_mt940_date b.date
      ++ (b.currency ++ replDot b.amount.toChars))) 10
      = some (replDot b.amount.toChars) := by
    rw [hassoc2]
    exact getFrom_append (by simp [hdclen, hf6len, hlen3])
  rw [hr3]
  rw [show (some (replDot b.amount.toChars)).getD [] = replDot b.amount.toChars from rfl]
  rw [amount_serial_roundtrip hamt]
  dsimp only
  cases b with
  | mk bt am cu dc dt =>
    simp only at hbt
    rw [hbt]

theorem parse_serBalance_62 {ccy : Str} {b : Balance}
    (hv : validBalance .Closing ccy b) :
    Mt940.parse_balance (Mt940.serBalanceLine ":62".toList true b) .Closing = .ok b := by
  obtain ⟨hbt, hccy, hlen3, hsafe, hamt, hwin⟩ := hv
  have hline : Mt940.serBalanceLine ":62".toList true b
      = ":62F:".toList ++ (b.debit_credit.toChars ++ (Mt940.format_mt940_date b.date
          ++ (b.currency ++ replDot b.amount.toChars))) := by
    have h1 : ":62".toList = [':', '6', '2'] := rfl
    have h2 : ":62F:".toList = [':', '6', '2', 'F', ':'] := rfl
    simp [Mt940.serBalanceLine, h1, h2, List.append_assoc]
  rw [hline]
  have hsw0 : startsWithStr (":62F:".toList ++ (b.debit_credit.toChars
      ++ (Mt940.format_mt940_date b.date ++ (b.currency ++ replDot b.amount.toChars))))
      ":60".toList = false := rfl
  have hsw2 : startsWithStr (":62F:".toList ++ (b.debit_credit.toChars
      ++ (Mt940.format_mt940_date b.date ++ (b.currency ++ replDot b.amount.toChars))))
      ":62".toList = true := rfl
  simp only [Mt940.parse_balance, hsw0, hsw2, if_true, Bool.false_eq_true, if_false]
  rw [getFrom_append (by decide : (":62F:".toList).length = 5)]
  have hdclen := dc_toChars_length b.debit_credit
  have hf6len := format_mt940_date_length hwin.1
  have hamtlen : 1 ≤ (replDot b.amount.toChars).length := by
    rw [replDot_length]
    exact List.length_pos.mpr (toChars_ne_nil b.amount)
  have hclen : (b.debit_credit.toChars ++ (Mt940.format_mt940_date b.date
      ++ (b.currency ++ replDot b.amount.toChars))).length
      = 10 + (replDot b.amount.toChars).length := by
    simp [hdclen, hf6len, hlen3]
    omega
  dsimp only
  rw [if_neg (by omega)]
  have hr0 : getRange (b.debit_credit.toChars ++ (Mt940.format_mt940_date b.date
      ++ (b.currency ++ replDot b.amount.toChars))) 0 1
      = some b.debit_credit.toChars :=
    getRange_left hdclen
  rw [hr0]
  rw [show (some b.debit_credit.toChars).getD [] = b.debit_credit.toChars from rfl,
    dc_fromChars_toChars]
  dsimp only
  have hr1 : getRange (b.debit_credit.toChars ++ (Mt940.format_mt940_date b.date
      ++ (b.currency ++ replDot b.amount.toChars))) 1 7
      = some (Mt940.format_mt940_date b.date) :=
    getRange_mid2 hdclen (by omega)
  rw [hr1]
  dsimp only
  rw [mt940_date_roundtrip hwin.1 hwin.2.1 hwin.2.2]
  dsimp only
  have hassoc : b.debit_credit.toChars ++ (Mt940.format_mt940_date b.date
      ++ (b.currency ++ replDot b.amount.toChars))
      = (b.debit_credit.toChars ++ Mt940.format_mt940_date b.date)
        ++ (b.currency ++ replDot b.amount.toChars) := by
    simp [List.append_assoc]
  have hr2 : getRange (b.debit_credit.toChars ++ (Mt940.format_mt940_date b.date
      ++ (b.currency ++ replDot b.amount.toChars))) 7 10 = some b.currency := by
    rw [hassoc]
    exact getRange_mid2 (by simp [hdclen, hf6len]) (by omega)
  rw [hr2]
  dsimp only
  have hassoc2 : b.debit_credit.toChars ++ (Mt940.format_mt940_date b.date
      ++ (b.currency ++ replDot b.amount.toChars))
      = ((b.debit_credit.toChars ++ Mt940.format_mt940_date b.date) ++ b.currency)
        ++ replDot b.amount.toChars := by
    simp [List.append_assoc]
  have hr3 : getFrom (b.debit_credit.toChars ++ (Mt940.format_mt940_date b.date
      ++ (b.currency ++ replDot b.amount.toChars))) 10
      = some (replDot b.amount.toChars) := by
    rw [hassoc2]
    exact getFrom_append (by simp [hdclen, hf6len, hlen3])
  rw [hr3]
  rw [show (some (replDot b.amount.toChars)).getD [] = replDot b.amount.toChars from rfl]
  rw [amount_serial_roundtrip hamt]
  dsimp only
  cases b with
  | mk bt am cu dc dt =>
    simp only at hbt
    rw [hbt]

/-- The Transaction that the Line parser reconstructs from a serialized
`:61:` line: the carried fields of the original, the statement currency,
and empty enrichment fields. -/
def Mt940.coreTx (ccy : Str) (t : Transaction) : Transaction :=
  { reference := t.reference
    date := t.date
    value_date := t.value_date
    amount := t.amount
    currency := ccy
    debit_credit := t.debit_credit
    account := none
    counterparty_account := none
    counterparty_name := none
    bank_identifier := none
    description := []
    additional_info := none }

theorem parse_ser61 {ccy : Str} {t : Transaction} (h : validTx ccy t) :
    Mt940.parse_transaction_line (Mt940.ser61 t) ccy = .ok (Mt940.coreTx ccy t) := by
  obtain ⟨hccy, hamt, hwd, ⟨vd, hvd, hwvd, hyr⟩, href_ne, href_trim, href_nds,
    href_safe, hdesc_trim, hdesc_safe⟩ := h
  set f6 := Mt940.format_mt940_date vd with hf6def
  set p2m := pad2 t.date.month with hp2mdef
  set p2d := pad2 t.date.day with hp2ddef
  set dcs := t.debit_credit.toChars with hdcsdef
  set amtS := replDot t.amount.toChars with hamtSdef
  set NR := "NTRF//".toList ++ t.reference with hNRdef
  set C := f6 ++ (p2m ++ (p2d ++ (dcs ++ (amtS ++ NR)))) with hCdef
  have hline : Mt940.ser61 t = ":61:".toList ++ C := by
    simp [Mt940.ser61, hvd, hCdef, hNRdef, hf6def, hp2mdef, hp2ddef, hdcsdef,
      hamtSdef, List.append_assoc]
  rw [hline]
  have hf6 : f6.length = 6 := format_mt940_date_length hwvd.1
  have hm2 : p2m.length = 2 := pad2_length (by
    obtain ⟨_, hm, _, _⟩ := hwd.1
    omega)
  have hd2 : p2d.length = 2 := pad2_length (by
    obtain ⟨_, _, _, hd⟩ := hwd.1
    have := daysInMonth_le t.date.year t.date.month
    omega)
  have hdc1 : dcs.length = 1 := dc_toChars_length t.debit_credit
  have hamt1 : 1 ≤ amtS.length := by
    rw [hamtSdef, replDot_length]
    exact List.length_pos.mpr (toChars_ne_nil t.amount)
  have href1 : 1 ≤ t.reference.length := List.length_pos.mpr href_ne
  have hNRlen : NR.length = 6 + t.reference.length := by
    simp [hNRdef]
    omega
  have hClen : C.length = 11 + amtS.length + NR.length := by
    simp only [hCdef, List.length_append]
    omega
  simp only [Mt940.parse_transaction_line]
  rw [getFrom_append (by decide : (":61:".toList).length = 4)]
  dsimp only
  rw [if_neg (by omega)]
  rw [getRange_left hf6]
  dsimp only
  rw [mt940_date_roundtrip hwvd.1 hwvd.2.1 hwvd.2.2]
  dsimp only
  obtain ⟨dch, drest, hdsplit, hddig⟩ :=
    exists_head_digit (pad2_ne_nil t.date.day) (pad2_all_digits t.date.day)
  have hget8 : C.get? (6 + 2) = some dch := by
    rw [show C = (f6 ++ p2m) ++ (p2d ++ (dcs ++ (amtS ++ NR))) from by
      simp [hCdef, List.append_assoc]]
    rw [get_append_right (by simp [hf6, hm2])]
    rw [get?_zero_append (show p2d ≠ [] from by
      rw [hp2ddef]
      exact pad2_ne_nil t.date.day)]
    rw [hp2ddef.trans hdsplit]
    rfl
  rw [if_pos (⟨by omega, by rw [hget8]; exact hddig⟩ :
    C.length > 6 + 4 ∧ isDigitCh ((C.get? (6 + 2)).getD 'X') = true)]
  have hr2 : getRange C 6 (6 + 4) = some (p2m ++ p2d) := by
    rw [show C = f6 ++ ((p2m ++ p2d) ++ (dcs ++ (amtS ++ NR))) from by
      simp [hCdef, List.append_assoc]]
    exact getRange_mid2 hf6 (by simp [hm2, hd2])
  rw [hr2]
  dsimp only
  have hed : Mt940.parse_mt940_entry_date (p2m ++ p2d) vd.year = .ok t.date := by
    rw [hyr, hp2mdef, hp2ddef]
    exact mt940_entry_date_roundtrip hwd.1
  rw [hed]
  dsimp only
  obtain ⟨ch, hch1, hch2⟩ := dc_singleton t.debit_credit
  have hgetdc : C.get? (6 + 4) = some ch := by
    rw [show C = ((f6 ++ p2m) ++ p2d) ++ (dcs ++ (amtS ++ NR)) from by
      simp [hCdef, List.append_assoc]]
    rw [get_append_right (by simp [hf6, hm2, hd2])]
    rw [hdcsdef.trans hch1]
    rfl
  rw [hgetdc]
  dsimp only
  rw [show DebitCredit.fromChars [ch] = some t.debit_credit from hch2]
  dsimp only
  have hrest : getFrom C (6 + 4 + 1) = some (amtS ++ NR) := by
    rw [show C = (((f6 ++ p2m) ++ p2d) ++ dcs) ++ (amtS ++ NR) from by
      simp [hCdef, List.append_assoc]]
    exact getFrom_append (by simp [hf6, hm2, hd2, hdc1])
  rw [hrest]
  dsimp only
  have hae : firstAlphaIdx (amtS ++ NR) = amtS.length := by
    rw [firstAlphaIdx_append (by
      rw [hamtSdef]
      exact replDot_amount_not_alpha hamt.1)]
    have hN : isAlphaCh 'N' = true := by decide
    have h0 : firstAlphaIdx NR = 0 := by
      rw [show NR = 'N' :: ("TRF//".toList ++ t.reference) from by
        rw [hNRdef]
        rfl]
      simp [firstAlphaIdx, hN]
    omega
  rw [hae]
  rw [getRange_left rfl]
  rw [show (some amtS).getD [] = amtS from rfl]
  rw [show Decimal.fromChars (replComma amtS) = some t.amount from by
    rw [hamtSdef]
    exact amount_serial_roundtrip hamt]
  dsimp only
  rw [getFrom_append rfl]
  dsimp only
  rw [show splitDslash NR = ["NTRF".toList, t.reference] from by
    rw [hNRdef]
    exact splitDslash_ntrf href_nds]
  rw [show (["NTRF".toList, t.reference] : List Str).getLast? = some t.reference from rfl]
  rw [show (some t.reference).getD NR = t.reference from rfl]
  rw [href_trim]
  rw [if_neg href_ne]
  simp [Mt940.coreTx, hvd]

theorem dropWhile_length_le {p : Str → Bool} : ∀ (l : List Str),
    (l.dropWhile p).length ≤ l.length := by
  intro l
  induction l with
  | nil => simp
  | cons x t ih =>
    by_cases hx : p x
    · simp only [List.dropWhile_cons, hx, if_true]
      exact Nat.le_trans ih (by simp)
    · simp [List.dropWhile_cons, hx]


theorem startsWith_append_lit : ∀ (pre a s : Str), pre.length ≤ a.length →
    startsWithStr (a ++ s) pre = startsWithStr a pre := by
  intro pre
  induction pre with
  | nil =>
    intro a s _
    simp [startsWithStr, List.isPrefixOf]
  | cons c p ih =>
    intro a s hlen
    cases a with
    | nil => simp at hlen
    | cons b bs =>
      show (c == b && List.isPrefixOf p (bs ++ s)) = (c == b && List.isPrefixOf p bs)
      have hr := ih bs s (by simpa using hlen)
      simp only [startsWithStr] at hr
      rw [hr]

theorem not_true_of_false {b : Bool} (h : b = false) : ¬ (b = true) := by
  simp [h]

theorem startsWith_mono {s pre1 pre2 : Str} (hp : pre1 <+: pre2)
    (hs : startsWithStr s pre2 = true) : startsWithStr s pre1 = true := by
  rw [startsWithStr, List.isPrefixOf_iff_prefix] at hs ⊢
  exact hp.trans hs

theorem startsWith_false_pref (pre4 pre a s : Str) (hp : pre4 <+: pre)
    (hlen : pre4.length ≤ a.length) (hfalse : startsWithStr a pre4 = false) :
    startsWithStr (a ++ s) pre = false := by
  cases hb : startsWithStr (a ++ s) pre with
  | false => rfl
  | true =>
    exfalso
    have h3 := startsWith_mono hp hb
    rw [startsWith_append_lit _ _ _ hlen, hfalse] at h3
    exact Bool.false_ne_true h3

namespace Mt940

theorem ser61_decomp (t : Transaction) : ∃ z, ser61 t = ":61:".toList ++ z := by
  refine ⟨format_mt940_date (match t.value_date with | some vd => vd | none => t.date)
    ++ (pad2 t.date.month ++ (pad2 t.date.day ++ (t.debit_credit.toChars
      ++ (replDot t.amount.toChars ++ ("NTRF//".toList ++ t.reference))))), ?_⟩
  simp [ser61, List.append_assoc]

theorem serBal60_decomp (b : Balance) :
    ∃ z, serBalanceLine ":60".toList true b = ":60F:".toList ++ z := by
  refine ⟨b.debit_credit.toChars ++ (format_mt940_date b.date
    ++ (b.currency ++ replDot b.amount.toChars)), ?_⟩
  have h1 : ":60".toList = [':', '6', '0'] := rfl
  have h2 : ":60F:".toList = [':', '6', '0', 'F', ':'] := rfl
  simp [serBalanceLine, h1, h2, List.append_assoc]

theorem serBal62_decomp (b : Balance) :
    ∃ z, serBalanceLine ":62".toList true b = ":62F:".toList ++ z := by
  refine ⟨b.debit_credit.toChars ++ (format_mt940_date b.date
    ++ (b.currency ++ replDot b.amount.toChars)), ?_⟩
  have h1 : ":62".toList = [':', '6', '2'] := rfl
  have h2 : ":62F:".toList = [':', '6', '2', 'F', ':'] := rfl
  simp [serBalanceLine, h1, h2, List.append_assoc]

theorem step_20 (fuel : Nat) (sid : Str) (rest : List Str) (st : PState) :
    loopAux (fuel + 1) ((":20:".toList ++ sid) :: rest) st
      = loopAux fuel rest { st with statement_id := trimChars sid } := by
  have hsw : startsWithStr (":20:".toList ++ sid) ":20:".toList = true := by
    rw [startsWith_append_lit _ _ _ (by decide)]
    decide
  have hdrop : (":20:".toList ++ sid).drop 4 = sid := drop_len_append ":20:".toList sid
  simp only [loopAux]
  rw [if_pos hsw, hdrop]

theorem step_25 (fuel : Nat) (acc : Str) (rest : List Str) (st : PState) :
    loopAux (fuel + 1) ((":25:".toList ++ acc) :: rest) st
      = loopAux fuel rest { st with account := trimChars acc } := by
  have h1 : startsWithStr (":25:".toList ++ acc) ":20:".toList = false := by
    rw [startsWith_append_lit _ _ _ (by decide)]
    decide
  have hsw : startsWithStr (":25:".toList ++ acc) ":25:".toList = true := by
    rw [startsWith_append_lit _ _ _ (by decide)]
    decide
  have hdrop : (":25:".toList ++ acc).drop 4 = acc := drop_len_append ":25:".toList acc
  simp only [loopAux]
  rw [if_neg (not_true_of_false h1), if_pos hsw, hdrop]

theorem step_28C (fuel : Nat) (sq : Str) (rest : List Str) (st : PState) :
    loopAux (fuel + 1) ((":28C:".toList ++ sq) :: rest) st
      = loopAux fuel rest { st with sequence_number := some (trimChars sq) } := by
  have h1 : startsWithStr (":28C:".toList ++ sq) ":20:".toList = false := by
    rw [startsWith_append_lit _ _ _ (by decide)]
    decide
  have h2 : startsWithStr (":28C:".toList ++ sq) ":25:".toList = false := by
    rw [startsWith_append_lit _ _ _ (by decide)]
    decide
  have hsw : startsWithStr (":28C:".toList ++ sq) ":28C:".toList = true := by
    rw [startsWith_append_lit _ _ _ (by decide)]
    decide
  have hdrop : (":28C:".toList ++ sq).drop 5 = sq := drop_len_append ":28C:".toList sq
  simp only [loopAux]
  rw [if_neg (not_true_of_false h1), if_neg (not_true_of_false h2), if_pos hsw, hdrop]

theorem step_60ser (fuel : Nat) (rest : List Str) (st : PState) (b bal : Balance)
    (hpb : parse_balance (serBalanceLine ":60".toList true b) .Opening = .ok bal) :
    loopAux (fuel + 1) (serBalanceLine ":60".toList true b :: rest) st
      = loopAux fuel rest
          { st with opening_balance := some bal
                    currency := if st.currency = [] then bal.currency else st.currency } := by
  obtain ⟨z, hz⟩ := serBal60_decomp b
  have h1 : startsWithStr (serBalanceLine ":60".toList true b) ":20:".toList = false := by
    rw [hz, startsWith_append_lit _ _ _ (by decide)]
    decide
  have h2 : startsWithStr (serBalanceLine ":60".toList true b) ":25:".toList = false := by
    rw [hz, startsWith_append_lit _ _ _ (by decide)]
    decide
  have h3 : startsWithStr (serBalanceLine ":60".toList true b) ":28C:".toList = false := by
    rw [hz, startsWith_append_lit _ _ _ (by decide)]
    decide
  have hsw : startsWithStr (serBalanceLine ":60".toList true b) ":60".toList = true := by
    rw [hz, startsWith_append_lit _ _ _ (by decide)]
    decide
  simp only [loopAux]
  rw [if_neg (not_true_of_false h1), if_neg (not_true_of_false h2),
    if_neg (not_true_of_false h3), if_pos hsw, hpb]

theorem step_61ser (fuel : Nat) (rest : List Str) (st : PState) (t : Transaction)
    (tr : Transaction)
    (hpt : parse_transaction_line (ser61 t) st.currency = .ok tr) :
    loopAux (fuel + 1) (ser61 t :: rest) st
      = loopAux fuel rest { flushCur st with current := some tr } := by
  obtain ⟨z, hz⟩ := ser61_decomp t
  have h1 : startsWithStr (ser61 t) ":20:".toList = false := by
    rw [hz, startsWith_append_lit _ _ _ (by decide)]
    decide
  have h2 : startsWithStr (ser61 t) ":25:".toList = false := by
    rw [hz, startsWith_append_lit _ _ _ (by decide)]
    decide
  have h3 : startsWithStr (ser61 t) ":28C:".toList = false := by
    rw [hz]
    exact startsWith_false_pref ":28C".toList _ _ _ (by decide) (by decide) (by decide)
  have h4 : startsWithStr (ser61 t) ":60".toList = false := by
    rw [hz, startsWith_append_lit _ _ _ (by decide)]
    decide
  have hsw : startsWithStr (ser61 t) ":61:".toList = true := by
    rw [hz, startsWith_append_lit _ _ _ (by decide)]
    decide
  simp only [loopAux]
  rw [if_neg (not_true_of_false h1), if_neg (not_true_of_false h2),
    if_neg (not_true_of_false h3), if_neg (not_true_of_false h4), if_pos hsw, hpt]

theorem takeWhile_conts {conts rest : List Str}
    (hconts : ∀ l ∈ conts, startsWithStr l [':'] = false)
    (hstop : match rest with | [] => True | r :: _ => startsWithStr r [':'] = true) :
    (conts ++ rest).takeWhile (fun l => ¬ startsWithStr l [':']) = conts ∧
    (conts ++ rest).dropWhile (fun l => ¬ startsWithStr l [':']) = rest := by
  induction conts with
  | nil =>
    cases rest with
    | nil => simp
    | cons r rs =>
      simp only at hstop
      simp [List.takeWhile_cons, List.dropWhile_cons, hstop]
  | cons c cs ih =>
    have hc : startsWithStr c [':'] = false := hconts c (by simp)
    obtain ⟨iht, ihd⟩ := ih (fun l hl => hconts l (by simp [hl]))
    constructor
    · simpa [List.takeWhile_cons, hc] using iht
    · simpa [List.dropWhile_cons, hc] using ihd

theorem step_86 (fuel : Nat) (d : Str) (conts rest : List Str) (st : PState)
    (hconts : ∀ l ∈ conts, startsWithStr l [':'] = false)
    (hstop : match rest with | [] => True | r :: _ => startsWithStr r [':'] = true) :
    loopAux (fuel + 1) ((":86:".toList ++ d) :: (conts ++ rest)) st
      = loopAux fuel rest
          { st with desc := conts.foldl (fun a l => a ++ ' ' :: trimChars l) (trimChars d) } := by
  have h1 : startsWithStr (":86:".toList ++ d) ":20:".toList = false := by
    rw [startsWith_append_lit _ _ _ (by decide)]
    decide
  have h2 : startsWithStr (":86:".toList ++ d) ":25:".toList = false := by
    rw [startsWith_append_lit _ _ _ (by decide)]
    decide
  have h3 : startsWithStr (":86:".toList ++ d) ":28C:".toList = false := by
    exact startsWith_false_pref ":28C".toList _ _ _ (by decide) (by decide) (by decide)
  have h4 : startsWithStr (":86:".toList ++ d) ":60".toList = false := by
    rw [startsWith_append_lit _ _ _ (by decide)]
    decide
  have h5 : startsWithStr (":86:".toList ++ d) ":61:".toList = false := by
    rw [startsWith_append_lit _ _ _ (by decide)]
    decide
  have hsw : startsWithStr (":86:".toList ++ d) ":86:".toList = true := by
    rw [startsWith_append_lit _ _ _ (by decide)]
    decide
  have hdrop : (":86:".toList ++ d).drop 4 = d := drop_len_append ":86:".toList d
  obtain ⟨htw, hdw⟩ := takeWhile_conts hconts hstop
  simp only [loopAux]
  rw [if_neg (not_true_of_false h1), if_neg (not_true_of_false h2),
    if_neg (not_true_of_false h3), if_neg (not_true_of_false h4),
    if_neg (not_true_of_false h5), if_pos hsw, hdrop, htw, hdw]

theorem step_62ser (fuel : Nat) (rest : List Str) (st : PState) (b bal : Balance)
    (hpb : parse_balance (serBalanceLine ":62".toList true b) .Closing = .ok bal) :
    loopAux (fuel + 1) (serBalanceLine ":62".toList true b :: rest) st
      = loopAux fuel rest { st with closing_balance := some bal } := by
  obtain ⟨z, hz⟩ := serBal62_decomp b
  have h1 : startsWithStr (serBalanceLine ":62".toList true b) ":20:".toList = false := by
    rw [hz, startsWith_append_lit _ _ _ (by decide)]
    decide
  have h2 : startsWithStr (serBalanceLine ":62".toList true b) ":25:".toList = false := by
    rw [hz, startsWith_append_lit _ _ _ (by decide)]
    decide
  have h3 : startsWithStr (serBalanceLine ":62".toList true b) ":28C:".toList = false := by
    rw [hz, startsWith_append_lit _ _ _ (by decide)]
    decide
  have h4 : startsWithStr (serBalanceLine ":62".toList true b) ":60".toList = false := by
    rw [hz, startsWith_append_lit _ _ _ (by decide)]
    decide
  have h5 : startsWithStr (serBalanceLine ":62".toList true b) ":61:".toList = false := by
    rw [hz, startsWith_append_lit _ _ _ (by decide)]
    decide
  have h6 : startsWithStr (serBalanceLine ":62".toList true b) ":86:".toList = false := by
    rw [hz, startsWith_append_lit _ _ _ (by decide)]
    decide
  have hsw : startsWithStr (serBalanceLine ":62".toList true b) ":62".toList = true := by
    rw [hz, startsWith_append_lit _ _ _ (by decide)]
    decide
  simp only [loopAux]
  rw [if_neg (not_true_of_false h1), if_neg (not_true_of_false h2),
    if_neg (not_true_of_false h3), if_neg (not_true_of_false h4),
    if_neg (not_true_of_false h5), if_neg (not_true_of_false h6), if_pos hsw, hpb]

theorem step_skip (fuel : Nat) (line : Str) (rest : List Str) (st : PState)
    (h1 : startsWithStr line ":20:".toList = false)
    (h2 : startsWithStr line ":25:".toList = false)
    (h3 : startsWithStr line ":28C:".toList = false)
    (h4 : startsWithStr line ":60".toList = false)
    (h5 : startsWithStr line ":61:".toList = false)
    (h6 : startsWithStr line ":86:".toList = false)
    (h7 : startsWithStr line ":62".toList = false) :
    loopAux (fuel + 1) (line :: rest) st = loopAux fuel rest st := by
  simp only [loopAux]
  rw [if_neg (not_true_of_false h1), if_neg (not_true_of_false h2),
    if_neg (not_true_of_false h3), if_neg (not_true_of_false h4),
    if_neg (not_true_of_false h5), if_neg (not_true_of_false h6),
    if_neg (not_true_of_false h7)]

end Mt940

namespace Mt940

/-- The transaction as reconstructed after its `:86:` description is
attached at flush time. -/
def fullTx (ccy : Str) (t : Transaction) : Transaction :=
  { coreTx ccy t with description := t.description }

/-- The scan state reached after consuming the serialized blocks of the
given transactions: all but the last are flushed, the last is pending. -/
def afterTxs (ccy : Str) : PState → List Transaction → PState
  | st, [] => st
  | st, t :: ts =>
    afterTxs ccy
      { flushCur st with current := some (coreTx ccy t), desc := t.description } ts

/-- The serialized lines of a transaction list. -/
def blocks (txs : List Transaction) : List Str := (txs.map serTxLines).flatten

/-- Scan iterations needed for a transaction list (one line or two). -/
def stepsOf (txs : List Transaction) : Nat :=
  (txs.map (fun t => if t.description = [] then 1 else 2)).sum

theorem flushCur_currency (st : PState) : (flushCur st).currency = st.currency := by
  cases hc : st.current <;> simp [flushCur, hc]

theorem flushCur_desc_of {st : PState} (h : st.current ≠ none ∨ st.desc = []) :
    (flushCur st).desc = [] := by
  cases hc : st.current with
  | none =>
    rcases h with h1 | h2
    · exact absurd hc h1
    · simp [flushCur, hc, h2]
  | some t => simp [flushCur, hc]

theorem pstate_desc_eta (A : PState) (x : Option Transaction) (h : A.desc = [])
    {d : Str} (hd : d = []) :
    ({ A with current := x } : PState) = { A with current := x, desc := d } := by
  cases A
  simp only at h
  simp [h, hd]

theorem ser61_starts (t : Transaction) : startsWithStr (ser61 t) [':'] = true := by
  obtain ⟨z, hz⟩ := ser61_decomp t
  rw [hz, startsWith_append_lit _ _ _ (by decide)]
  decide

theorem serBal62_starts (b : Balance) :
    startsWithStr (serBalanceLine ":62".toList true b) [':'] = true := by
  obtain ⟨z, hz⟩ := serBal62_decomp b
  rw [hz, startsWith_append_lit _ _ _ (by decide)]
  decide

theorem loop_blocks : ∀ (txs : List Transaction) (rest : List Str) (st : PState)
    (fuel : Nat) (ccy : Str),
    st.currency = ccy →
    (∀ t ∈ txs, validTx ccy t) →
    (st.current ≠ none ∨ st.desc = []) →
    (match txs.getLast? with
     | some tl => tl.description = [] ∨
         (∃ r rs, rest = r :: rs ∧ startsWithStr r [':'] = true) ∨ rest = []
     | none => True) →
    loopAux (stepsOf txs + fuel) (blocks txs ++ rest) st
      = loopAux fuel rest (afterTxs ccy st txs) := by
  intro txs
  induction txs with
  | nil =>
    intro rest st fuel ccy hccy hv hstok hlast
    simp [stepsOf, blocks, afterTxs]
  | cons t ts ih =>
    intro rest st fuel ccy hccy hv hstok hlast
    have hvt : validTx ccy t := hv t (by simp)
    have hpt : parse_transaction_line (ser61 t) st.currency = .ok (coreTx ccy t) := by
      rw [hccy]
      exact parse_ser61 hvt
    have hlast2 : (match ts.getLast? with
        | some tl => tl.description = [] ∨
            (∃ r rs, rest = r :: rs ∧ startsWithStr r [':'] = true) ∨ rest = []
        | none => True) := by
      cases ts with
      | nil => trivial
      | cons t2 ts2 =>
        rw [List.getLast?_cons_cons] at hlast
        exact hlast
    by_cases hdesc : t.description = []
    · have harith : stepsOf (t :: ts) + fuel = (stepsOf ts + fuel) + 1 := by
        simp [stepsOf, hdesc]
        omega
      have hlist : blocks (t :: ts) ++ rest = ser61 t :: (blocks ts ++ rest) := by
        simp [blocks, serTxLines, hdesc]
      rw [harith, hlist, step_61ser _ _ _ _ _ hpt]
      have hst1 : ({ flushCur st with current := some (coreTx ccy t) } : PState)
          = { flushCur st with current := some (coreTx ccy t), desc := t.description } :=
        pstate_desc_eta (flushCur st) (some (coreTx ccy t)) (flushCur_desc_of hstok) hdesc
      rw [hst1]
      have hres := ih rest
        { flushCur st with current := some (coreTx ccy t), desc := t.description }
        fuel ccy (by simp [flushCur_currency, hccy])
        (fun x hx => hv x (by simp [hx])) (by simp) hlast2
      rw [hres]
      rfl
    · have harith : stepsOf (t :: ts) + fuel = ((stepsOf ts + fuel) + 1) + 1 := by
        simp [stepsOf, hdesc]
        omega
      have hlist : blocks (t :: ts) ++ rest
          = ser61 t :: ((":86:".toList ++ t.description) :: (blocks ts ++ rest)) := by
        simp [blocks, serTxLines, hdesc]
      rw [harith, hlist, step_61ser _ _ _ _ _ hpt]
      have hstop : (match (blocks ts ++ rest) with
          | [] => True
          | r :: _ => startsWithStr r [':'] = true) := by
        cases ts with
        | nil =>
          simp only [blocks, List.map_nil, List.flatten_nil, List.nil_append]
          rcases hlast with h1 | ⟨r, rs, hr, hsw⟩ | h3
          · exact absurd h1 hdesc
          · rw [hr]
            exact hsw
          · rw [h3]
            trivial
        | cons t2 ts2 =>
          have hb : blocks (t2 :: ts2) ++ rest = ser61 t2
              :: ((if t2.description = [] then []
                    else [":86:".toList ++ t2.description]) ++ (blocks ts2 ++ rest)) := by
            simp [blocks, serTxLines]
          rw [hb]
          exact ser61_starts t2
      have h86 := step_86 (stepsOf ts + fuel) t.description []
        (blocks ts ++ rest) { flushCur st with current := some (coreTx ccy t) }
        (by simp) hstop
      simp only [List.nil_append] at h86
      rw [h86]
      simp only [List.foldl_nil]
      obtain ⟨_, _, _, _, _, _, _, _, hdesc_trim, _⟩ := hvt
      rw [hdesc_trim]
      have hres := ih rest
        { flushCur st with current := some (coreTx ccy t), desc := t.description }
        fuel ccy (by simp [flushCur_currency, hccy])
        (fun x hx => hv x (by simp [hx])) (by simp) hlast2
      rw [hres]
      rfl

end Mt940

namespace Mt940

theorem flushCur_none {st : PState} (h : st.current = none) : flushCur st = st := by
  simp [flushCur, h]

theorem flushCur_current (st : PState) : (flushCur st).current = none := by
  cases hc : st.current <;> simp [flushCur, hc]

theorem flushCur_set_closing (A : PState) (c : Option Balance) :
    flushCur { A with closing_balance := c } = { flushCur A with closing_balance := c } := by
  cases hc : A.current <;> simp [flushCur, hc]

theorem flushCur_pending (A : PState) (hA8 : A.current = none) (hA9 : A.desc = [])
    (x : Transaction) (d : Str) :
    flushCur { A with current := some x, desc := d }
      = { A with transactions := A.transactions ++ [{ x with description := trimChars d }] } := by
  cases A
  simp only at hA8 hA9
  subst hA8
  subst hA9
  simp [flushCur]

theorem flush_afterTxs (ccy : Str) : ∀ (txs : List Transaction) (st : PState),
    (st.current ≠ none ∨ st.desc = []) →
    (∀ t ∈ txs, trimChars t.description = t.description) →
    flushCur (afterTxs ccy st txs)
      = { flushCur st with
            transactions := (flushCur st).transactions ++ txs.map (fullTx ccy) } := by
  intro txs
  induction txs with
  | nil =>
    intro st _ _
    simp [afterTxs]
  | cons t ts ih =>
    intro st hstok htrim
    have h1 : flushCur { flushCur st with
          current := some (coreTx ccy t)
          desc := t.description }
        = { flushCur st with
              transactions := (flushCur st).transactions ++ [fullTx ccy t] } := by
      rw [flushCur_pending (flushCur st) (flushCur_current st)
        (flushCur_desc_of hstok) (coreTx ccy t) t.description]
      rw [htrim t (by simp)]
      rfl
    have h2 := ih { flushCur st with
        current := some (coreTx ccy t)
        desc := t.description }
      (Or.inl (by simp)) (fun x hx => htrim x (by simp [hx]))
    show flushCur (afterTxs ccy
        { flushCur st with
            current := some (coreTx ccy t)
            desc := t.description } ts) = _
    rw [h2, h1]
    simp

end Mt940

theorem linesOfAux_line : ∀ (l acc : Str) (rest : Str), (∀ c ∈ l, c ≠ '\n') →
    linesOfAux acc (l ++ '\n' :: rest)
      = (if (l.reverse ++ acc).head? = some '\r' then (l.reverse ++ acc).tail
         else (l.reverse ++ acc)).reverse :: linesOfAux [] rest := by
  intro l
  induction l with
  | nil =>
    intro acc rest _
    simp [linesOfAux]
  | cons c t ih =>
    intro acc rest h
    have hc : c ≠ '\n' := h c (by simp)
    simp only [List.cons_append, linesOfAux, if_neg hc, List.append_eq]
    rw [ih (c :: acc) rest (fun x hx => h x (by simp [hx]))]
    simp [List.append_assoc]

theorem linesOf_join : ∀ (ls : List Str), (∀ l ∈ ls, lineSafe l) →
    linesOf (joinLines ls) = ls := by
  intro ls
  induction ls with
  | nil => intro _; rfl
  | cons l t ih =>
    intro h
    have hl : lineSafe l := h l (by simp)
    have hjoin : joinLines (l :: t) = l ++ '\n' :: joinLines t := rfl
    rw [linesOf, hjoin, linesOfAux_line l [] (joinLines t) (fun c hc => (hl c hc).1)]
    have hnr : l.getLast? ≠ some '\r' := by
      intro hg
      have hrv : l.reverse.head? = some '\r' := by
        rw [List.head?_reverse]
        exact hg
      cases hrev : l.reverse with
      | nil => rw [hrev] at hrv; exact Option.noConfusion hrv
      | cons c cs =>
        rw [hrev] at hrv
        have hcr : c = '\r' := by simpa using hrv
        have hcmem : c ∈ l := by
          have : c ∈ l.reverse := by rw [hrev]; simp
          simpa using this
        exact (hl c hcmem).2 hcr
    rw [if_neg (by simp [hnr])]
    simp only [List.append_nil, List.reverse_reverse]
    rw [show linesOfAux [] (joinLines t) = linesOf (joinLines t) from rfl,
      ih (fun x hx => h x (by simp [hx]))]

theorem lineSafe_append {a b : Str} (ha : lineSafe a) (hb : lineSafe b) :
    lineSafe (a ++ b) := by
  intro c hc
  rcases List.mem_append.mp hc with h | h
  · exact ha c h
  · exact hb c h

theorem lineSafe_digits {l : Str} (h : l.all isDigitCh = true) : lineSafe l :=
  fun c hc => ⟨digit_ne_nl (all_mem_digits h c hc), digit_ne_cr (all_mem_digits h c hc)⟩

theorem lineSafe_pad2 (n : Nat) : lineSafe (pad2 n) :=
  lineSafe_digits (pad2_all_digits n)

theorem lineSafe_format_date (d : Date) : lineSafe (Mt940.format_mt940_date d) := by
  unfold Mt940.format_mt940_date
  exact lineSafe_append (lineSafe_append (lineSafe_pad2 _) (lineSafe_pad2 _)) (lineSafe_pad2 _)

theorem lineSafe_dc (x : DebitCredit) : lineSafe (DebitCredit.toChars x) := by
  cases x <;> intro c hc <;> simp [DebitCredit.toChars] at hc <;>
    subst hc <;> exact ⟨by decide, by decide⟩

theorem lineSafe_amount {a : Decimal} (h : 0 ≤ a.mantissa) :
    lineSafe (replDot a.toChars) := by
  intro c hc
  simp only [replDot, List.mem_map] at hc
  obtain ⟨c0, hc0, hmap⟩ := hc
  rcases toChars_mem h c0 hc0 with hd | hd
  · rw [← hmap, if_neg (digit_ne_dot hd)]
    exact ⟨digit_ne_nl hd, digit_ne_cr hd⟩
  · rw [← hmap, if_pos hd]
    exact ⟨by decide, by decide⟩

namespace Mt940

theorem blocks_length (txs : List Transaction) : (blocks txs).length = stepsOf txs := by
  induction txs with
  | nil => rfl
  | cons t ts ih =>
    by_cases hd : t.description = [] <;>
      simp [blocks, stepsOf, serTxLines, hd, List.length_append] at * <;> omega

theorem lineSafe_lit {l : Str}
    (h : l.all (fun c => !(c = '\n' : Bool) && !(c = '\r' : Bool)) = true) :
    lineSafe l := by
  intro c hc
  have h2 := List.all_eq_true.mp h c hc
  simp only [Bool.and_eq_true, Bool.not_eq_true', decide_eq_false_iff_not] at h2
  exact h2

theorem lineSafe_serBal {bt : BalanceType} {ccy : Str} (tag : Str) (final : Bool)
    {b : Balance} (htag : lineSafe tag) (hv : validBalance bt ccy b) :
    lineSafe (serBalanceLine tag final b) := by
  obtain ⟨_, _, _, hsafe, hamt, _⟩ := hv
  unfold serBalanceLine
  have hIf : lineSafe (if final then ['F'] else ['M']) := by
    cases final <;> intro c hc <;> simp at hc <;> subst hc <;>
      exact ⟨by decide, by decide⟩
  have hcdc : lineSafe (':' :: b.debit_credit.toChars) := by
    intro c hc
    rcases List.mem_cons.mp hc with h | h
    · subst h
      exact ⟨by decide, by decide⟩
    · exact lineSafe_dc _ c h
  exact lineSafe_append (lineSafe_append (lineSafe_append (lineSafe_append
    (lineSafe_append htag hIf) hcdc) (lineSafe_format_date _)) hsafe)
    (lineSafe_amount hamt.1)

theorem lineSafe_ser61 {ccy : Str} {t : Transaction} (hv : validTx ccy t) :
    lineSafe (ser61 t) := by
  obtain ⟨_, hamt, _, _, _, _, _, href_safe, _, _⟩ := hv
  unfold ser61
  exact lineSafe_append (lineSafe_append (lineSafe_append (lineSafe_append
    (lineSafe_append (lineSafe_append (lineSafe_append (lineSafe_lit (by decide))
    (lineSafe_format_date _)) (lineSafe_pad2 _)) (lineSafe_pad2 _))
    (lineSafe_dc _)) (lineSafe_amount hamt.1)) (lineSafe_lit (by decide))) href_safe

theorem lineSafe_serTx {ccy : Str} {t : Transaction} (hv : validTx ccy t) :
    ∀ l ∈ serTxLines t, lineSafe l := by
  intro l hl
  simp only [serTxLines] at hl
  rcases List.mem_cons.mp hl with h | h
  · subst h
    exact lineSafe_ser61 hv
  · by_cases hd : t.description = []
    · rw [if_pos hd] at h
      exact absurd h (List.not_mem_nil l)
    · rw [if_neg hd] at h
      have : l = ":86:".toList ++ t.description := by simpa using h
      subst this
      exact lineSafe_append (lineSafe_lit (by decide)) hv.2.2.2.2.2.2.2.2.2

theorem lineSafe_blocks {ccy : Str} {txs : List Transaction}
    (hv : ∀ t ∈ txs, validTx ccy t) : ∀ l ∈ blocks txs, lineSafe l := by
  intro l hl
  simp only [blocks, List.mem_flatten, List.mem_map] at hl
  obtain ⟨ls, ⟨t, ht, hls⟩, hlmem⟩ := hl
  subst hls
  exact lineSafe_serTx (hv t ht) l hlmem

theorem forall2_fullTx {ccy : Str} {txs : List Transaction}
    (hv : ∀ t ∈ txs, validTx ccy t) :
    List.Forall₂ txCarried (txs.map (fullTx ccy)) txs := by
  induction txs with
  | nil => exact List.Forall₂.nil
  | cons t ts ih =>
    refine List.Forall₂.cons ?_ (ih (fun x hx => hv x (by simp [hx])))
    have hc := (hv t (by simp)).1
    simp [txCarried, fullTx, Mt940.coreTx, hc]

end Mt940

namespace Mt940

/-- The fixed header line `serialize_mt940` writes (src/mt940_format.rs:302). -/
def hdrL : Str := "\x7b1:F01BANKXXXXAXXX0000000000\x7d\x7b2:I940BANKXXXXAXXXXN\x7d\x7b4:".toList

/-- The fixed trailer line `serialize_mt940` writes (src/mt940_format.rs:348). -/
def trailerL : Str := "-\x7d".toList

/-- The scan state reached after the serialized header and `:20:`/`:25:`
(and optional `:28C:`) lines and the opening-balance line. -/
def preState (sid acc : Str) (sq : Option Str) (ob : Balance) : PState :=
  { statement_id := sid
    account := acc
    sequence_number := sq
    currency := ob.currency
    opening_balance := some ob
    closing_balance := none
    transactions := []
    current := none
    desc := [] }

theorem run_prelude_some (fuel : Nat) (sid acc sq : Str) (ob : Balance) (rest : List Str)
    (hpb : parse_balance (serBalanceLine ":60".toList true ob) .Opening = .ok ob) :
    loopAux (fuel + 1 + 1 + 1 + 1 + 1)
      (hdrL :: (":20:".toList ++ sid) :: (":25:".toList ++ acc)
        :: (":28C:".toList ++ sq) :: serBalanceLine ":60".toList true ob :: rest) pInit
      = loopAux fuel rest
          (preState (trimChars sid) (trimChars acc) (some (trimChars sq)) ob) := by
  rw [step_skip _ hdrL _ _ (by decide) (by decide) (by decide) (by decide)
    (by decide) (by decide) (by decide)]
  rw [step_20, step_25, step_28C, step_60ser _ _ _ ob ob hpb]
  rfl

theorem run_prelude_none (fuel : Nat) (sid acc : Str) (ob : Balance) (rest : List Str)
    (hpb : parse_balance (serBalanceLine ":60".toList true ob) .Opening = .ok ob) :
    loopAux (fuel + 1 + 1 + 1 + 1)
      (hdrL :: (":20:".toList ++ sid) :: (":25:".toList ++ acc)
        :: serBalanceLine ":60".toList true ob :: rest) pInit
      = loopAux fuel rest
          (preState (trimChars sid) (trimChars acc) none ob) := by
  rw [step_skip _ hdrL _ _ (by decide) (by decide) (by decide) (by decide)
    (by decide) (by decide) (by decide)]
  rw [step_20, step_25, step_60ser _ _ _ ob ob hpb]
  rfl

theorem run_tail_some (cb : Balance) (A : PState)
    (hpb : parse_balance (serBalanceLine ":62".toList true cb) .Closing = .ok cb) :
    loopAux (0 + 1 + 1) [serBalanceLine ":62".toList true cb, trailerL] A
      = .ok { A with closing_balance := some cb } := by
  rw [step_62ser (0 + 1) [trailerL] A cb cb hpb]
  rw [step_skip 0 trailerL [] _ (by decide) (by decide) (by decide) (by decide)
    (by decide) (by decide) (by decide)]
  rfl

theorem run_tail_none (A : PState) :
    loopAux (0 + 1) [trailerL] A = .ok A := by
  rw [step_skip 0 trailerL [] _ (by decide) (by decide) (by decide) (by decide)
    (by decide) (by decide) (by decide)]
  rfl

end Mt940

namespace Mt940

theorem serialize_parse_roundtrip (s : Statement) (hv : ValidMt940 s) :
    ∃ u, parse_mt940 (linesOf (serialize_mt940 s)) = .ok u ∧ eqCarried u s := by
  obtain ⟨hid_ne, hid_trim, hid_safe, hacc_ne, hacc_trim, hacc_safe, hseq,
    ⟨ob, hob, hvob⟩, hcb, htx, hlast⟩ := hv
  have hbt60 : ob.balance_type = BalanceType.Opening := hvob.1
  have hobc : ob.currency = s.currency := hvob.2.1
  have hpb60 : parse_balance (serBalanceLine ":60".toList true ob) .Opening = .ok ob :=
    parse_serBalance_60 hvob
  have htrim : ∀ t ∈ s.transactions, trimChars t.description = t.description :=
    fun t ht => (htx t ht).2.2.2.2.2.2.2.2.1
  rcases hsqe : s.sequence_number with _ | sq <;> rcases hcbe : s.closing_balance with _ | cb
  · -- no sequence number, no closing balance
    have hlines : serLines s
        = hdrL :: (":20:".toList ++ s.statement_id) :: (":25:".toList ++ s.account)
          :: serBalanceLine ":60".toList true ob
          :: (blocks s.transactions ++ [trailerL]) := by
      simp [serLines, hdrL, trailerL, hsqe, hob, hcbe, hbt60, blocks]
    have hall : ∀ l ∈ serLines s, lineSafe l := by
      rw [hlines]
      intro l hl
      simp only [List.mem_cons, List.mem_append, List.not_mem_nil, or_false] at hl
      rcases hl with h | h | h | h | h | h
      · subst h
        exact lineSafe_lit (by decide)
      · subst h
        exact lineSafe_append (lineSafe_lit (by decide)) hid_safe
      · subst h
        exact lineSafe_append (lineSafe_lit (by decide)) hacc_safe
      · subst h
        exact lineSafe_serBal _ _ (lineSafe_lit (by decide)) hvob
      · exact lineSafe_blocks htx l h
      · subst h
        exact lineSafe_lit (by decide)
    have hlen : (serLines s).length
        = stepsOf s.transactions + (0 + 1) + 1 + 1 + 1 + 1 := by
      rw [hlines]
      simp [blocks_length]
    have hrest_last : (match s.transactions.getLast? with
        | some tl => tl.description = [] ∨
            (∃ r rs, ([trailerL] : List Str) = r :: rs ∧ startsWithStr r [':'] = true) ∨
            ([trailerL] : List Str) = []
        | none => True) := by
      cases hgl : s.transactions.getLast? with
      | none => trivial
      | some tl =>
        have hlast2 : tl.description = [] ∨ s.closing_balance ≠ none := by
          simpa [hgl] using hlast
        rcases hlast2 with h | h
        · exact Or.inl h
        · exact absurd hcbe h
    have hrun : loopAux (serLines s).length (serLines s) pInit
        = .ok (afterTxs s.currency (preState s.statement_id s.account none ob)
            s.transactions) := by
      rw [hlen, hlines, run_prelude_none _ _ _ _ _ hpb60, hid_trim, hacc_trim]
      rw [loop_blocks s.transactions [trailerL]
        (preState s.statement_id s.account none ob) (0 + 1) s.currency hobc htx
        (Or.inr rfl) hrest_last]
      exact run_tail_none _
    have hfl : flushCur (afterTxs s.currency (preState s.statement_id s.account none ob)
          s.transactions)
        = { preState s.statement_id s.account none ob with
              transactions := s.transactions.map (fullTx s.currency) } := by
      rw [flush_afterTxs s.currency s.transactions _ (Or.inr rfl) htrim,
        flushCur_none rfl]
      rfl
    refine ⟨{ Statement.new s.statement_id s.account ob.currency with
        sequence_number := none
        opening_balance := some ob
        closing_balance := none
        transactions := s.transactions.map (fullTx s.currency) },
      ?_, rfl, rfl, hsqe.symm, hob.symm, hcbe.symm, hobc, forall2_fullTx htx⟩
    rw [show serialize_mt940 s = joinLines (serLines s) from rfl, linesOf_join _ hall]
    simp only [parse_mt940, hrun]
    rw [hfl]
    simp only [preState]
    rw [if_neg hid_ne, if_neg hacc_ne]
  · -- no sequence number, closing balance present
    have hvcb := hcb cb hcbe
    have hbt62 : cb.balance_type = BalanceType.Closing := hvcb.1
    have hpb62 : parse_balance (serBalanceLine ":62".toList true cb) .Closing = .ok cb :=
      parse_serBalance_62 hvcb
    have hlines : serLines s
        = hdrL :: (":20:".toList ++ s.statement_id) :: (":25:".toList ++ s.account)
          :: serBalanceLine ":60".toList true ob
          :: (blocks s.transactions
              ++ [serBalanceLine ":62".toList true cb, trailerL]) := by
      simp [serLines, hdrL, trailerL, hsqe, hob, hcbe, hbt60, hbt62, blocks]
    have hall : ∀ l ∈ serLines s, lineSafe l := by
      rw [hlines]
      intro l hl
      simp only [List.mem_cons, List.mem_append, List.not_mem_nil, or_false] at hl
      rcases hl with h | h | h | h | h | h | h
      · subst h
        exact lineSafe_lit (by decide)
      · subst h
        exact lineSafe_append (lineSafe_lit (by decide)) hid_safe
      · subst h
        exact lineSafe_append (lineSafe_lit (by decide)) hacc_safe
      · subst h
        exact lineSafe_serBal _ _ (lineSafe_lit (by decide)) hvob
      · exact lineSafe_blocks htx l h
      · subst h
        exact lineSafe_serBal _ _ (lineSafe_lit (by decide)) hvcb
      · subst h
        exact lineSafe_lit (by decide)
    have hlen : (serLines s).length
        = stepsOf s.transactions + (0 + 1 + 1) + 1 + 1 + 1 + 1 := by
      rw [hlines]
      simp [blocks_length]
    have hrest_last : (match s.transactions.getLast? with
        | some tl => tl.description = [] ∨
            (∃ r rs, ([serBalanceLine ":62".toList true cb, trailerL] : List Str) = r :: rs
              ∧ startsWithStr r [':'] = true) ∨
            ([serBalanceLine ":62".toList true cb, trailerL] : List Str) = []
        | none => True) := by
      cases hgl : s.transactions.getLast? with
      | none => trivial
      | some tl => exact Or.inr (Or.inl ⟨_, _, rfl, serBal62_starts cb⟩)
    have hrun : loopAux (serLines s).length (serLines s) pInit
        = .ok { afterTxs s.currency (preState s.statement_id s.account none ob)
            s.transactions with closing_balance := some cb } := by
      rw [hlen, hlines, run_prelude_none _ _ _ _ _ hpb60, hid_trim, hacc_trim]
      rw [loop_blocks s.transactions [serBalanceLine ":62".toList true cb, trailerL]
        (preState s.statement_id s.account none ob) (0 + 1 + 1) s.currency hobc htx
        (Or.inr rfl) hrest_last]
      exact run_tail_some cb _ hpb62
    have hfl : flushCur ({ afterTxs s.currency
          (preState s.statement_id s.account none ob) s.transactions with
            closing_balance := some cb })
        = { preState s.statement_id s.account none ob with
              transactions := s.transactions.map (fullTx s.currency)
              closing_balance := some cb } := by
      rw [flushCur_set_closing,
        flush_afterTxs s.currency s.transactions _ (Or.inr rfl) htrim,
        flushCur_none rfl]
      rfl
    refine ⟨{ Statement.new s.statement_id s.account ob.currency with
        sequence_number := none
        opening_balance := some ob
        closing_balance := some cb
        transactions := s.transactions.map (fullTx s.currency) },
      ?_, rfl, rfl, hsqe.symm, hob.symm, hcbe.symm, hobc, forall2_fullTx htx⟩
    rw [show serialize_mt940 s = joinLines (serLines s) from rfl, linesOf_join _ hall]
    simp only [parse_mt940, hrun]
    rw [hfl]
    simp only [preState]
    rw [if_neg hid_ne, if_neg hacc_ne]
  · -- sequence number present, no closing balance
    have hsqt := hseq sq hsqe
    have hlines : serLines s
        = hdrL :: (":20:".toList ++ s.statement_id) :: (":25:".toList ++ s.account)
          :: (":28C:".toList ++ sq) :: serBalanceLine ":60".toList true ob
          :: (blocks s.transactions ++ [trailerL]) := by
      simp [serLines, hdrL, trailerL, hsqe, hob, hcbe, hbt60, blocks]
    have hall : ∀ l ∈ serLines s, lineSafe l := by
      rw [hlines]
      intro l hl
      simp only [List.mem_cons, List.mem_append, List.not_mem_nil, or_false] at hl
      rcases hl with h | h | h | h | h | h | h
      · subst h
        exact lineSafe_lit (by decide)
      · subst h
        exact lineSafe_append (lineSafe_lit (by decide)) hid_safe
      · subst h
        exact lineSafe_append (lineSafe_lit (by decide)) hacc_safe
      · subst h
        exact lineSafe_append (lineSafe_lit (by decide)) hsqt.2
      · subst h
        exact lineSafe_serBal _ _ (lineSafe_lit (by decide)) hvob
      · exact lineSafe_blocks htx l h
      · subst h
        exact lineSafe_lit (by decide)
    have hlen : (serLines s).length
        = stepsOf s.transactions + (0 + 1) + 1 + 1 + 1 + 1 + 1 := by
      rw [hlines]
      simp [blocks_length]
    have hrest_last : (match s.transactions.getLast? with
        | some tl => tl.description = [] ∨
            (∃ r rs, ([trailerL] : List Str) = r :: rs ∧ startsWithStr r [':'] = true) ∨
            ([trailerL] : List Str) = []
        | none => True) := by
      cases hgl : s.transactions.getLast? with
      | none => trivial
      | some tl =>
        have hlast2 : tl.description = [] ∨ s.closing_balance ≠ none := by
          simpa [hgl] using hlast
        rcases hlast2 with h | h
        · exact Or.inl h
        · exact absurd hcbe h
    have hrun : loopAux (serLines s).length (serLines s) pInit
        = .ok (afterTxs s.currency (preState s.statement_id s.account (some sq) ob)
            s.transactions) := by
      rw [hlen, hlines, run_prelude_some _ _ _ _ _ _ hpb60, hid_trim, hacc_trim, hsqt.1]
      rw [loop_blocks s.transactions [trailerL]
        (preState s.statement_id s.account (some sq) ob) (0 + 1) s.currency hobc htx
        (Or.inr rfl) hrest_last]
      exact run_tail_none _
    have hfl : flushCur (afterTxs s.currency
          (preState s.statement_id s.account (some sq) ob) s.transactions)
        = { preState s.statement_id s.account (some sq) ob with
              transactions := s.transactions.map (fullTx s.currency) } := by
      rw [flush_afterTxs s.currency s.transactions _ (Or.inr rfl) htrim,
        flushCur_none rfl]
      rfl
    refine ⟨{ Statement.new s.statement_id s.account ob.currency with
        sequence_number := some sq
        opening_balance := some ob
        closing_balance := none
        transactions := s.transactions.map (fullTx s.currency) },
      ?_, rfl, rfl, hsqe.symm, hob.symm, hcbe.symm, hobc, forall2_fullTx htx⟩
    rw [show serialize_mt940 s = joinLines (serLines s) from rfl, linesOf_join _ hall]
    simp only [parse_mt940, hrun]
    rw [hfl]
    simp only [preState]
    rw [if_neg hid_ne, if_neg hacc_ne]
  · -- sequence number and closing balance both present
    have hsqt := hseq sq hsqe
    have hvcb := hcb cb hcbe
    have hbt62 : cb.balance_type = BalanceType.Closing := hvcb.1
    have hpb62 : parse_balance (serBalanceLine ":62".toList true cb) .Closing = .ok cb :=
      parse_serBalance_62 hvcb
    have hlines : serLines s
        = hdrL :: (":20:".toList ++ s.statement_id) :: (":25:".toList ++ s.account)
          :: (":28C:".toList ++ sq) :: serBalanceLine ":60".toList true ob
          :: (blocks s.transactions
              ++ [serBalanceLine ":62".toList true cb, trailerL]) := by
      simp [serLines, hdrL, trailerL, hsqe, hob, hcbe, hbt60, hbt62, blocks]
    have hall : ∀ l ∈ serLines s, lineSafe l := by
      rw [hlines]
      intro l hl
      simp only [List.mem_cons, List.mem_append, List.not_mem_nil, or_false] at hl
      rcases hl with h | h | h | h | h | h | h | h
      · subst h
        exact lineSafe_lit (by decide)
      · subst h
        exact lineSafe_append (lineSafe_lit (by decide)) hid_safe
      · subst h
        exact lineSafe_append (lineSafe_lit (by decide)) hacc_safe
      · subst h
        exact lineSafe_append (lineSafe_lit (by decide)) hsqt.2
      · subst h
        exact lineSafe_serBal _ _ (lineSafe_lit (by decide)) hvob
      · exact lineSafe_blocks htx l h
      · subst h
        exact lineSafe_serBal _ _ (lineSafe_lit (by decide)) hvcb
      · subst h
        exact lineSafe_lit (by decide)
    have hlen : (serLines s).length
        = stepsOf s.transactions + (0 + 1 + 1) + 1 + 1 + 1 + 1 + 1 := by
      rw [hlines]
      simp [blocks_length]
    have hrest_last : (match s.transactions.getLast? with
        | some tl => tl.description = [] ∨
            (∃ r rs, ([serBalanceLine ":62".toList true cb, trailerL] : List Str) = r :: rs
              ∧ startsWithStr r [':'] = true) ∨
            ([serBalanceLine ":62".toList true cb, trailerL] : List Str) = []
        | none => True) := by
      cases hgl : s.transactions.getLast? with
      | none => trivial
      | some tl => exact Or.inr (Or.inl ⟨_, _, rfl, serBal62_starts cb⟩)
    have hrun : loopAux (serLines s).length (serLines s) pInit
        = .ok { afterTxs s.currency (preState s.statement_id s.account (some sq) ob)
            s.transactions with closing_balance := some cb } := by
      rw [hlen, hlines, run_prelude_some _ _ _ _ _ _ hpb60, hid_trim, hacc_trim, hsqt.1]
      rw [loop_blocks s.transactions [serBalanceLine ":62".toList true cb, trailerL]
        (preState s.statement_id s.account (some sq) ob) (0 + 1 + 1) s.currency hobc htx
        (Or.inr rfl) hrest_last]
      exact run_tail_some cb _ hpb62
    have hfl : flushCur ({ afterTxs s.currency
          (preState s.statement_id s.account (some sq) ob) s.transactions with
            closing_balance := some cb })
        = { preState s.statement_id s.account (some sq) ob with
              transactions := s.transactions.map (fullTx s.currency)
              closing_balance := some cb } := by
      rw [flushCur_set_closing,
        flush_afterTxs s.currency s.transactions _ (Or.inr rfl) htrim,
        flushCur_none rfl]
      rfl
    refine ⟨{ Statement.new s.statement_id s.account ob.currency with
        sequence_number := some sq
        opening_balance := some ob
        closing_balance := some cb
        transactions := s.transactions.map (fullTx s.currency) },
      ?_, rfl, rfl, hsqe.symm, hob.symm, hcbe.symm, hobc, forall2_fullTx htx⟩
    rw [show serialize_mt940 s = joinLines (serLines s) from rfl, linesOf_join _ hall]
    simp only [parse_mt940, hrun]
    rw [hfl]
    simp only [preState]
    rw [if_neg hid_ne, if_neg hacc_ne]

end Mt940

theorem mt940_ref_nonempty {line ccy : Str} {t : Transaction}
    (h : Mt940.parse_transaction_line line ccy = .ok t) : t.reference ≠ [] := by
  unfold Mt940.parse_transaction_line at h
  iterate 20 all_goals try first | (split at h) | (split_ifs at h) | (dsimp only at h)
  all_goals try exact absurd h (fun hc => Except.noConfusion hc)
  all_goals obtain rfl := (Except.ok.inj h)
  all_goals simp_all [List.append_eq_nil]

theorem forall2_desc_map : ∀ {xs ys : List Transaction},
    List.Forall₂ txCarried xs ys →
    xs.map (fun t => t.description) = ys.map (fun t => t.description) := by
  intro xs ys h
  induction h with
  | nil => rfl
  | cons hab _ ih => simp [ih, hab.2.2.2.2.2.2]

theorem eqCarried_desc_map {a b : Statement} (h : eqCarried a b) :
    a.transactions.map (fun t => t.description)
      = b.transactions.map (fun t => t.description) :=
  forall2_desc_map h.2.2.2.2.2.2

theorem fromYmdOpt_year {y : Int} {m d : Nat} {dt : Date}
    (h : fromYmdOpt y m d = some dt) : dt.year = y := by
  unfold fromYmdOpt at h
  split at h
  · obtain rfl := Option.some.inj h
    rfl
  · exact absurd h (fun hc => Option.noConfusion hc)

namespace Mt940

theorem flushCur_sid (st : PState) : (flushCur st).statement_id = st.statement_id := by
  cases hc : st.current <;> simp [flushCur, hc]

theorem flushCur_account (st : PState) : (flushCur st).account = st.account := by
  cases hc : st.current <;> simp [flushCur, hc]

theorem loopAux_no20 : ∀ (fuel : Nat) (lines : List Str) (st st' : PState),
    (∀ l ∈ lines, startsWithStr l ":20:".toList = false) →
    loopAux fuel lines st = .ok st' → st'.statement_id = st.statement_id := by
  intro fuel
  induction fuel with
  | zero =>
    intro lines st st' _ h
    cases lines with
    | nil =>
      simp only [loopAux] at h
      obtain rfl := Except.ok.inj h
      rfl
    | cons l rest =>
      simp only [loopAux] at h
      obtain rfl := Except.ok.inj h
      rfl
  | succ n ih =>
    intro lines st st' h20 h
    cases lines with
    | nil =>
      simp only [loopAux] at h
      obtain rfl := Except.ok.inj h
      rfl
    | cons line rest =>
      simp only [loopAux] at h
      iterate 14 all_goals try first | (split at h) | (dsimp only at h)
      all_goals try exact absurd h (fun hc => Except.noConfusion hc)
      all_goals first
        | exact absurd ((h20 line (List.mem_cons_self line rest)).symm.trans
            (by assumption)) (by decide)
        | exact (ih _ _ _ (fun x hx => h20 x (List.mem_cons_of_mem _ hx)) h).trans rfl
        | exact (ih _ _ _ (fun x hx => h20 x (List.mem_cons_of_mem _ hx)) h).trans
            (flushCur_sid st)
        | exact (ih _ _ _
            (fun x hx => h20 x
              (List.mem_cons_of_mem _ ((List.dropWhile_sublist _).subset hx))) h).trans rfl

theorem loopAux_no25 : ∀ (fuel : Nat) (lines : List Str) (st st' : PState),
    (∀ l ∈ lines, startsWithStr l ":25:".toList = false) →
    loopAux fuel lines st = .ok st' → st'.account = st.account := by
  intro fuel
  induction fuel with
  | zero =>
    intro lines st st' _ h
    cases lines with
    | nil =>
      simp only [loopAux] at h
      obtain rfl := Except.ok.inj h
      rfl
    | cons l rest =>
      simp only [loopAux] at h
      obtain rfl := Except.ok.inj h
      rfl
  | succ n ih =>
    intro lines st st' h25 h
    cases lines with
    | nil =>
      simp only [loopAux] at h
      obtain rfl := Except.ok.inj h
      rfl
    | cons line rest =>
      simp only [loopAux] at h
      iterate 14 all_goals try first | (split at h) | (dsimp only at h)
      all_goals try exact absurd h (fun hc => Except.noConfusion hc)
      all_goals first
        | exact absurd ((h25 line (List.mem_cons_self line rest)).symm.trans
            (by assumption)) (by decide)
        | exact (ih _ _ _ (fun x hx => h25 x (List.mem_cons_of_mem _ hx)) h).trans rfl
        | exact (ih _ _ _ (fun x hx => h25 x (List.mem_cons_of_mem _ hx)) h).trans
            (flushCur_account st)
        | exact (ih _ _ _
            (fun x hx => h25 x
              (List.mem_cons_of_mem _ ((List.dropWhile_sublist _).subset hx))) h).trans rfl

end Mt940

theorem camt_balance_ccy_placeholder {bal : Camt053.BalanceXml} {b : Balance}
    (hccy : bal.amt.ccyGet = none)
    (h : Camt053.parse_balance bal = .ok b) : b.currency = "XXX".toList := by
  unfold Camt053.parse_balance at h
  simp only [bind, Except.bind, okOr, pure, Except.pure, throw, throwThe,
    MonadExceptOf.throw] at h
  iterate 16 all_goals try first | (split at h) | (dsimp only at h)
  all_goals try exact absurd h (fun hc => Except.noConfusion hc)
  all_goals obtain rfl := Except.ok.inj h
  all_goals simp [hccy]

theorem camt_balance_type_ok {bal : Camt053.BalanceXml} {b : Balance}
    (h : Camt053.parse_balance bal = .ok b) :
    b.balance_type = Camt053.balanceTypeOfCd bal.tp.cd_or_prtry.cd := by
  unfold Camt053.parse_balance at h
  simp only [bind, Except.bind, okOr, pure, Except.pure, throw, throwThe,
    MonadExceptOf.throw] at h
  iterate 16 all_goals try first | (split at h) | (dsimp only at h)
  all_goals try exact absurd h (fun hc => Except.noConfusion hc)
  all_goals obtain rfl := Except.ok.inj h
  all_goals rfl

theorem camt_balance_code_irrelevant (bal : Camt053.BalanceXml)
    (tp2 : Camt053.BalanceTypeXml) :
    Camt053.parse_balance { bal with tp := tp2 }
      = (Camt053.parse_balance bal).map
          (fun b => { b with
            balance_type := Camt053.balanceTypeOfCd tp2.cd_or_prtry.cd }) := by
  unfold Camt053.parse_balance
  simp only [bind, Except.bind, okOr, pure, Except.pure, throw, throwThe,
    MonadExceptOf.throw]
  cases hamt : Decimal.fromChars bal.amt.value <;> simp only [Except.map]
  cases hdc : DebitCredit.fromChars bal.cdt_dbt_ind <;> simp only [Except.map]
  cases hdt : bal.dt.dt with
  | some d =>
    dsimp only
    cases hpd : Camt053.parse_date_only d <;> simp [Except.map]
  | none =>
    dsimp only
    cases hdtm : bal.dt.dt_tm with
    | some dtm =>
      dsimp only
      cases hpc : Camt053.parse_camt_date dtm <;> simp [Except.map]
    | none => simp [Except.map]

theorem except_bind_ok {ε α β : Type} {x : Except ε α} {f : α → Except ε β} {b : β}
    (h : x >>= f = .ok b) : ∃ a, x = .ok a ∧ f a = .ok b := by
  cases x with
  | ok a => exact ⟨a, rfl, h⟩
  | error e => exact absurd h (fun hc => Except.noConfusion hc)

theorem camt_entry_default_date {entry : Camt053.EntryXml} {dflt : Str} {now : Date}
    {t : Transaction}
    (hbd : entry.bookg_dt = none ∨ entry.bookg_dt = some ⟨none, none⟩)
    (h : Camt053.parse_entry entry dflt now = .ok t) : t.date = now := by
  unfold Camt053.parse_entry at h
  rcases hbd with hb | hb
  all_goals rw [hb] at h
  all_goals dsimp only at h
  all_goals obtain ⟨amount, hamt, h⟩ := except_bind_ok h
  all_goals obtain ⟨dc, hdc, h⟩ := except_bind_ok h
  all_goals obtain ⟨date, hdate, h⟩ := except_bind_ok h
  all_goals iterate 8 all_goals try first | (split at h) | (dsimp only at h)
  all_goals try obtain ⟨vd, hvd, h⟩ := except_bind_ok h
  all_goals obtain rfl := Except.ok.inj h
  all_goals exact (Except.ok.inj hdate).symm

theorem mt940_pivot {s : Str} {dt : Date} (h : Mt940.parse_mt940_date s = .ok dt) :
    ∃ yy : Int, (getRange s 0 2).bind parseIntChars = some yy ∧
      dt.year = (if yy < 50 then 2000 + yy else 1900 + yy) := by
  unfold Mt940.parse_mt940_date at h
  simp only [okOr] at h
  iterate 10 all_goals try first | (split at h) | (dsimp only at h)
  all_goals try exact absurd h (fun hc => Except.noConfusion hc)
  all_goals obtain rfl := Except.ok.inj h
  all_goals exact ⟨_, by assumption, fromYmdOpt_year (by assumption)⟩

instance (s : Str) : Decidable (lineSafe s) := by
  unfold lineSafe
  exact List.decidableBAll _ s

instance (a : Decimal) : Decidable (validAmount a) := by
  unfold validAmount
  infer_instance

instance (d : Date) : Decidable (windowOk d) := by
  unfold windowOk
  infer_instance

instance {P : Date → Prop} [∀ d, Decidable (P d)] (o : Option Date) :
    Decidable (∃ vd, o = some vd ∧ P vd) :=
  match o with
  | none => isFalse (fun ⟨_, hv, _⟩ => Option.noConfusion hv)
  | some d =>
    if h : P d then isTrue ⟨d, rfl, h⟩
    else isFalse (fun ⟨_, hv, hp⟩ => h ((Option.some.inj hv).symm ▸ hp))

instance (bt : BalanceType) (ccy : Str) (b : Balance) :
    Decidable (validBalance bt ccy b) := by
  unfold validBalance
  infer_instance

instance (ccy : Str) (t : Transaction) : Decidable (validTx ccy t) := by
  unfold validTx
  infer_instance

theorem convTx_id {t : Transaction} (h1 : t.additional_info = none)
    (h2 : t.counterparty_name = none) : convTx t = t := by
  cases t
  simp only at h1 h2
  subst h1
  subst h2
  simp [convTx]

theorem camt_to_mt940_idem {s : Statement}
    (h : ∀ t ∈ s.transactions, t.additional_info = none ∧ t.counterparty_name = none) :
    camt053_to_mt940 (camt053_to_mt940 s) = camt053_to_mt940 s := by
  have hm : s.transactions.map convTx = s.transactions :=
    (List.map_congr_left (fun t ht => convTx_id (h t ht).1 (h t ht).2)).trans
      (List.map_id _)
  have hfix : camt053_to_mt940 s = s := by
    unfold camt053_to_mt940
    rw [hm]
  rw [hfix, hfix]

/-- A concrete calendar date used by the verification examples. -/
def exDate : Date := ⟨2024, 1, 15⟩

/-- A concrete opening balance used by the verification examples. -/
def exBalanceOpen : Balance :=
  { balance_type := .Opening
    amount := ⟨10050, 2⟩
    currency := "USD".toList
    debit_credit := .Credit
    date := exDate }

/-- A concrete closing balance used by the verification examples. -/
def exBalanceClose : Balance :=
  { balance_type := .Closing
    amount := ⟨20000, 2⟩
    currency := "USD".toList
    debit_credit := .Credit
    date := exDate }

/-- A concrete Line-representable transaction used by the examples. -/
def exTx : Transaction :=
  { reference := "REF-1".toList
    date := exDate
    value_date := some exDate
    amount := ⟨1250, 2⟩
    currency := "USD".toList
    debit_credit := .Debit
    account := none
    counterparty_account := none
    counterparty_name := none
    bank_identifier := none
    description := "PAYMENT".toList
    additional_info := none }

/-- A Line-representable statement with a closing balance (C1 witness input). -/
def c1wit : Statement :=
  { Statement.new "STMT1".toList "ACC1".toList "USD".toList with
      sequence_number := some "001".toList
      opening_balance := some exBalanceOpen
      closing_balance := some exBalanceClose
      transactions := [exTx] }

/-- The same statement without a closing balance: its serialization absorbs
the `-` trailer into the last description (C1 counterexample input). -/
def c1cex : Statement :=
  { Statement.new "STMT1".toList "ACC1".toList "USD".toList with
      opening_balance := some exBalanceOpen
      transactions := [exTx] }

/-- A statement whose transaction carries `additional_info` (C2
counterexample input). -/
def c2cex : Statement :=
  { Statement.new "S1".toList "A1".toList "RUB".toList with
      transactions := [{ exTx with additional_info := some "INFO".toList }] }

/-- A statement with no enrichment fields (C2 witness input). -/
def c2wit : Statement :=
  { Statement.new "S1".toList "A1".toList "RUB".toList with
      transactions := [exTx] }

/-- A Structured-format balance element whose amount has no currency (C3). -/
def c3bal : Camt053.BalanceXml :=
  { tp := ⟨⟨"OPBD".toList⟩⟩
    amt := { value := "100.50".toList, ccy := none, ccy_alt := none }
    cdt_dbt_ind := "CRDT".toList
    dt := { dt := some "2024-01-15".toList, dt_tm := none } }

/-- A Structured-format document whose account currency is `USD` and whose
only balance names no currency (C3 counterexample input). -/
def c3doc : Camt053.Document :=
  { bk_to_cstmr_stmt :=
    { stmt :=
      { id := "STMT-42".toList
        elctrnic_seq_nb := none
        cre_dt_tm := none
        fr_to_dt := none
        acct := { id := { iban := some "DE89".toList, othr := none }
                  ccy := "USD".toList
                  nm := none }
        bal := [c3bal]
        ntry := [] } } }

/-- A `:61:` line whose reference after `//` is empty, forcing synthesis
(C4 witness input). -/
def c4line : Str := ":61:2401150115C12,50NTRF//".toList

/-- A Tabular row whose reference cell is blank (C4 counterexample input). -/
def c4row : Csv.CsvRecord :=
  { date := "15.01.2024".toList
    debit_account := "40702810".toList
    credit_account := []
    debit_amount := "100".toList
    credit_amount := []
    reference := "  ".toList
    description := []
    bank := [] }

/-- A Structured-format balance element with an unrecognized type code and
an explicit currency (C7 witness input). -/
def c7bal : Camt053.BalanceXml :=
  { tp := ⟨⟨"ZZZZ".toList⟩⟩
    amt := { value := "7.25".toList, ccy := some "EUR".toList, ccy_alt := none }
    cdt_dbt_ind := "DBIT".toList
    dt := { dt := some "2024-01-15".toList, dt_tm := none } }

/-- A Structured-format entry with no booking-date element (C10 witness
input). -/
def c10entry : Camt053.EntryXml :=
  { ntry_ref := some "E-1".toList
    amt := { value := "5".toList, ccy := none, ccy_alt := none }
    cdt_dbt_ind := "CRDT".toList
    bookg_dt := none
    val_dt := none
    bk_tx_cd := none
    ntry_dtls := none }

/-- The Balance parsed from `c3bal` (amount currency absent): the `XXX`
placeholder, not the statement context. -/
def c3balParsed : Balance :=
  { balance_type := .Opening
    amount := ⟨10050, 2⟩
    currency := "XXX".toList
    debit_credit := .Credit
    date := exDate }

/-- The Transaction parsed from `c4line`: its reference is synthesized from
date and amount. -/
def c4tx : Transaction :=
  { reference := "2024-01-15-12.50".toList
    date := exDate
    value_date := some exDate
    amount := ⟨1250, 2⟩
    currency := "USD".toList
    debit_credit := .Credit
    account := none
    counterparty_account := none
    counterparty_name := none
    bank_identifier := none
    description := []
    additional_info := none }

/-- The Transaction parsed from `c10entry` with wall-clock date 2024-02-03. -/
def c10tx : Transaction :=
  { reference := "E-1".toList
    date := ⟨2024, 2, 3⟩
    value_date := none
    amount := ⟨5, 0⟩
    currency := "EUR".toList
    debit_credit := .Credit
    account := none
    counterparty_account := none
    counterparty_name := none
    bank_identifier := none
    description := []
    additional_info := none }

/-- Claim C1 (amended): for every Line-representable Statement — non-empty
trimmed header fields, representable balances and transactions, and a
closing balance whenever the last transaction has a description — parsing
the serialized Line output yields a Statement equal to the input on the
fields the format natively carries. -/
theorem claim_C1_line_roundtrip (s : Statement) (hv : ValidMt940 s) :
    ∃ u, Mt940.parse_mt940 (linesOf (Mt940.serialize_mt940 s)) = .ok u
      ∧ eqCarried u s :=
  Mt940.serialize_parse_roundtrip s hv

/-- Witness for C1: the round trip at a concrete statement with a sequence
number, both balances and one described transaction. -/
theorem claim_C1_line_roundtrip_witness :
    ∃ u, Mt940.parse_mt940 (linesOf (Mt940.serialize_mt940 c1wit)) = .ok u
      ∧ eqCarried u c1wit :=
  claim_C1_line_roundtrip c1wit (by
    refine ⟨by decide, by decide, by decide, by decide, by decide, by decide, ?_,
      ⟨exBalanceOpen, rfl, by decide⟩, ?_, ?_, ?_⟩
    · intro sq hsq
      obtain rfl := Option.some.inj hsq
      exact ⟨by decide, by decide⟩
    · intro cb hcb
      obtain rfl := Option.some.inj hcb
      decide
    · intro t ht
      obtain rfl : t = exTx := by simpa [c1wit, Statement.new] using ht
      decide
    · simp [c1wit, Statement.new])

/-- Counterexample for C1 as frozen: `c1cex` has non-empty identifiers and
fully representable content but no closing balance; the serializer's `-`
trailer is absorbed into the last `:86:` description on re-parse, so no
parse result agrees with the input on the carried fields. -/
theorem claim_C1_counterexample :
    ¬ ∃ u, Mt940.parse_mt940 (linesOf (Mt940.serialize_mt940 c1cex)) = .ok u
        ∧ eqCarried u c1cex := by
  rintro ⟨u, hu, hc⟩
  have hval : Mt940.parse_mt940 (linesOf (Mt940.serialize_mt940 c1cex))
      = .ok ({ Statement.new "STMT1".toList "ACC1".toList "USD".toList with
          opening_balance := some exBalanceOpen
          transactions := [{ exTx with description := "PAYMENT -\x7d".toList }] }) := by
    decide
  obtain rfl := Except.ok.inj (hval.symm.trans hu)
  have hd := eqCarried_desc_map hc
  exact absurd hd (by decide)

/-- Claim C2 (amended): the Structured-to-Line conversion is idempotent on
statements whose transactions carry no `additional_info` and no
`counterparty_name`; the source never clears those fields, so a second
conversion re-appends them otherwise. -/
theorem claim_C2_conversion_idempotent (s : Statement)
    (h : ∀ t ∈ s.transactions, t.additional_info = none ∧ t.counterparty_name = none) :
    camt053_to_mt940 (camt053_to_mt940 s) = camt053_to_mt940 s :=
  camt_to_mt940_idem h

/-- Witness for C2: idempotence at a concrete enrichment-free statement. -/
theorem claim_C2_conversion_idempotent_witness :
    camt053_to_mt940 (camt053_to_mt940 c2wit) = camt053_to_mt940 c2wit :=
  claim_C2_conversion_idempotent c2wit (by decide)

/-- Counterexample for C2 as frozen: with `additional_info` present the
second conversion appends the folded text to the description again. -/
theorem claim_C2_counterexample :
    camt053_to_mt940 (camt053_to_mt940 c2cex) ≠ camt053_to_mt940 c2cex := by
  decide

/-- Claim C3 (amended): a Structured-format balance whose amount element
names no currency parses to the fixed `XXX` placeholder — the statement
context is not consulted. -/
theorem claim_C3_balance_currency_placeholder (bal : Camt053.BalanceXml) (b : Balance)
    (hccy : bal.amt.ccyGet = none)
    (h : Camt053.parse_balance bal = .ok b) : b.currency = "XXX".toList :=
  camt_balance_ccy_placeholder hccy h

/-- Witness for C3: the placeholder at a concrete balance element. -/
theorem claim_C3_balance_currency_placeholder_witness :
    Camt053.parse_balance c3bal = .ok c3balParsed
      ∧ c3balParsed.currency = "XXX".toList :=
  ⟨by decide, claim_C3_balance_currency_placeholder c3bal c3balParsed rfl (by decide)⟩

/-- Counterexample for C3 as frozen: in `c3doc` the account currency is
`USD`, yet the parsed opening balance carries `XXX`, not the context fill
the spec describes. -/
theorem claim_C3_counterexample :
    (Camt053.from_document c3doc ⟨2024, 2, 1⟩).map
        (fun st => (st.currency, st.opening_balance.map (fun b => b.currency)))
      = .ok ("USD".toList, some "XXX".toList)
    ∧ "XXX".toList ≠ "USD".toList :=
  ⟨by decide, by decide⟩

/-- Claim C4 (amended): the Line codec's transaction parser always yields a
non-empty reference, synthesizing `date-amount` when the `//` reference is
absent; the Tabular codec, by contrast, passes an empty reference through. -/
theorem claim_C4_line_reference_synthesized (line ccy : Str) (t : Transaction)
    (h : Mt940.parse_transaction_line line ccy = .ok t) : t.reference ≠ [] :=
  mt940_ref_nonempty h

/-- Witness for C4: a `:61:` line with an empty `//` reference parses to
the synthesized date-amount reference. -/
theorem claim_C4_line_reference_synthesized_witness :
    Mt940.parse_transaction_line c4line "USD".toList = .ok c4tx
      ∧ c4tx.reference = "2024-01-15-12.50".toList
      ∧ c4tx.reference ≠ [] :=
  ⟨by decide, by decide,
    claim_C4_line_reference_synthesized c4line "USD".toList c4tx (by decide)⟩

/-- Counterexample for C4 as frozen: the Tabular codec parses a row with a
blank reference cell to a transaction whose reference is empty — no
synthesis happens there. -/
theorem claim_C4_counterexample :
    (Csv.from_records [c4row] 0).map
        (fun st => st.transactions.map (fun t => t.reference))
      = .ok [[]] := by
  decide

/-- Claim C5: every successful Line-format date parse reads its first two
digits as a year value `yy` and pivots it: `yy < 50` gives year `2000+yy`,
otherwise `1900+yy`. -/
theorem claim_C5_y2k_pivot (s : Str) (dt : Date)
    (h : Mt940.parse_mt940_date s = .ok dt) :
    ∃ yy : Int, (getRange s 0 2).bind parseIntChars = some yy ∧
      dt.year = (if yy < 50 then 2000 + yy else 1900 + yy) :=
  mt940_pivot h

/-- Witness for C5: `490101` parses to 2049-01-01 and `500101` to
1950-01-01, each matching the pivot formula. -/
theorem claim_C5_y2k_pivot_witness :
    (Mt940.parse_mt940_date "490101".toList = .ok ⟨2049, 1, 1⟩) ∧
    (Mt940.parse_mt940_date "500101".toList = .ok ⟨1950, 1, 1⟩) ∧
    (∃ yy : Int, (getRange "490101".toList 0 2).bind parseIntChars = some yy ∧
      (⟨2049, 1, 1⟩ : Date).year = (if yy < 50 then 2000 + yy else 1900 + yy)) ∧
    (∃ yy : Int, (getRange "500101".toList 0 2).bind parseIntChars = some yy ∧
      (⟨1950, 1, 1⟩ : Date).year = (if yy < 50 then 2000 + yy else 1900 + yy)) :=
  ⟨by decide, by decide,
    claim_C5_y2k_pivot _ _ (by decide), claim_C5_y2k_pivot _ _ (by decide)⟩

/-- Claim C6: a `:86:` line followed by continuation lines (lines not
starting with `:`) yields one description — the space-joined trimmed
fragments — and the scan resumes after the consumed lines. -/
theorem claim_C6_continuation_merge (fuel : Nat) (d : Str) (conts rest : List Str)
    (st : Mt940.PState)
    (hconts : ∀ l ∈ conts, startsWithStr l [':'] = false)
    (hstop : match rest with | [] => True | r :: _ => startsWithStr r [':'] = true) :
    Mt940.loopAux (fuel + 1) ((":86:".toList ++ d) :: (conts ++ rest)) st
      = Mt940.loopAux fuel rest
          { st with
              desc := conts.foldl (fun a l => a ++ ' ' :: trimChars l) (trimChars d) } :=
  Mt940.step_86 fuel d conts rest st hconts hstop

/-- Witness for C6: a `:86:` line with two untagged continuations merges
into the single space-joined description. -/
theorem claim_C6_continuation_merge_witness :
    Mt940.loopAux 1 ((":86:".toList ++ "part one".toList)
        :: (["part two".toList, "part three".toList] ++ [])) Mt940.pInit
      = Mt940.loopAux 0 []
          { Mt940.pInit with desc := "part one part two part three".toList } := by
  have h := claim_C6_continuation_merge 0 "part one".toList
    ["part two".toList, "part three".toList] [] Mt940.pInit (by decide) trivial
  exact h.trans (by decide)

/-- Claim C7: the Structured-format balance-type mapping sends `OPBD` and
`OPAV` to Opening, `CLBD` and `CLAV` to Closing, and `PRCD` like every
other code to Intermediate; the code never makes `parse_balance` fail —
changing it only changes the resulting balance type. -/
theorem claim_C7_balance_code_mapping :
    (∀ (bal : Camt053.BalanceXml) (b : Balance),
      Camt053.parse_balance bal = .ok b →
      b.balance_type = Camt053.balanceTypeOfCd bal.tp.cd_or_prtry.cd) ∧
    Camt053.balanceTypeOfCd "OPBD".toList = BalanceType.Opening ∧
    Camt053.balanceTypeOfCd "OPAV".toList = BalanceType.Opening ∧
    Camt053.balanceTypeOfCd "CLBD".toList = BalanceType.Closing ∧
    Camt053.balanceTypeOfCd "CLAV".toList = BalanceType.Closing ∧
    Camt053.balanceTypeOfCd "PRCD".toList = BalanceType.Intermediate ∧
    (∀ cd : Str, cd ≠ "OPBD".toList → cd ≠ "OPAV".toList → cd ≠ "CLBD".toList →
      cd ≠ "CLAV".toList → Camt053.balanceTypeOfCd cd = BalanceType.Intermediate) ∧
    (∀ (bal : Camt053.BalanceXml) (tp2 : Camt053.BalanceTypeXml),
      Camt053.parse_balance { bal with tp := tp2 }
        = (Camt053.parse_balance bal).map
            (fun b => { b with
              balance_type := Camt053.balanceTypeOfCd tp2.cd_or_prtry.cd })) := by
  refine ⟨fun bal b h => camt_balance_type_ok h, by decide, by decide, by decide,
    by decide, by decide, ?_, fun bal tp2 => camt_balance_code_irrelevant bal tp2⟩
  intro cd h1 h2 h3 h4
  unfold Camt053.balanceTypeOfCd
  rw [if_neg (by rintro (hc | hc); exacts [h1 hc, h2 hc]),
    if_neg (by rintro (hc | hc); exacts [h3 hc, h4 hc])]
  exact ite_self _

/-- Witness for C7: a balance element with the unrecognized code `ZZZZ`
parses successfully, to an Intermediate balance. -/
theorem claim_C7_balance_code_mapping_witness :
    Camt053.parse_balance c7bal
      = .ok { balance_type := .Intermediate
              amount := ⟨725, 2⟩
              currency := "EUR".toList
              debit_credit := .Debit
              date := exDate } := by
  decide

/-- Claim C8: when no input line starts with `:20:` (or none starts with
`:25:`), Line-format parsing never returns a Statement; and whenever the
scan itself completes, the reported error is a MissingField. -/
theorem claim_C8_missing_required_tags (lines : List Str) :
    ((∀ l ∈ lines, startsWithStr l ":20:".toList = false) →
      (∀ u, Mt940.parse_mt940 lines ≠ .ok u) ∧
      (∀ st0, Mt940.loopAux lines.length lines Mt940.pInit = .ok st0 →
        Mt940.parse_mt940 lines
          = .error (.MissingField "statement reference :20:".toList))) ∧
    ((∀ l ∈ lines, startsWithStr l ":25:".toList = false) →
      (∀ u, Mt940.parse_mt940 lines ≠ .ok u) ∧
      (∀ st0, Mt940.loopAux lines.length lines Mt940.pInit = .ok st0 →
        ∃ f, Mt940.parse_mt940 lines = .error (.MissingField f))) := by
  constructor
  · intro h20
    have key : ∀ st0, Mt940.loopAux lines.length lines Mt940.pInit = .ok st0 →
        Mt940.parse_mt940 lines
          = .error (.MissingField "statement reference :20:".toList) := by
      intro st0 hl
      have hsid : st0.statement_id = [] :=
        (Mt940.loopAux_no20 _ _ _ _ h20 hl).trans rfl
      simp only [Mt940.parse_mt940, hl]
      rw [if_pos ((Mt940.flushCur_sid st0).trans hsid)]
    refine ⟨?_, key⟩
    intro u hu
    rcases hloop : Mt940.loopAux lines.length lines Mt940.pInit with e | st0
    · simp only [Mt940.parse_mt940, hloop] at hu
      exact Except.noConfusion hu
    · rw [key st0 hloop] at hu
      exact Except.noConfusion hu
  · intro h25
    have key : ∀ st0, Mt940.loopAux lines.length lines Mt940.pInit = .ok st0 →
        ∃ f, Mt940.parse_mt940 lines = .error (.MissingField f) := by
      intro st0 hl
      have hacc : st0.account = [] :=
        (Mt940.loopAux_no25 _ _ _ _ h25 hl).trans rfl
      by_cases hsid : (Mt940.flushCur st0).statement_id = []
      · refine ⟨"statement reference :20:".toList, ?_⟩
        simp only [Mt940.parse_mt940, hl]
        rw [if_pos hsid]
      · refine ⟨"account identification :25:".toList, ?_⟩
        simp only [Mt940.parse_mt940, hl]
        rw [if_neg hsid, if_pos ((Mt940.flushCur_account st0).trans hacc)]
    refine ⟨?_, key⟩
    intro u hu
    rcases hloop : Mt940.loopAux lines.length lines Mt940.pInit with e | st0
    · simp only [Mt940.parse_mt940, hloop] at hu
      exact Except.noConfusion hu
    · obtain ⟨f, hf⟩ := key st0 hloop
      rw [hf] at hu
      exact Except.noConfusion hu

/-- Witness for C8: an input holding only a `:25:` line is rejected with
the `:20:` MissingField error. -/
theorem claim_C8_missing_required_tags_witness :
    (∀ u, Mt940.parse_mt940 [":25:ACC1".toList] ≠ .ok u) ∧
    Mt940.parse_mt940 [":25:ACC1".toList]
      = .error (.MissingField "statement reference :20:".toList) := by
  have h := (claim_C8_missing_required_tags [":25:ACC1".toList]).1 (by decide)
  exact ⟨h.1, h.2 { Mt940.pInit with account := "ACC1".toList } (by decide)⟩

/-- Claim C9: Tabular amount parsing strips spaces and maps comma to dot
(`1 540,00` gives the exact decimal 1540.00); bank-label extraction returns
the token after a `БИК `/`BIC ` marker (`044525545` in the example) and the
trimmed field verbatim with neither marker. -/
theorem claim_C9_tabular_amount_and_bic :
    (Csv.parse_amount "1 540,00".toList = .ok ⟨154000, 2⟩) ∧
    (Csv.extract_bic "БИК 044525545 АО Bank".toList = "044525545".toList) ∧
    (∀ f : Str, findSubIdx "БИК ".toList f = none →
      findSubIdx "BIC ".toList f = none →
      Csv.extract_bic f = trimChars f) := by
  refine ⟨by decide, by decide, ?_⟩
  intro f h1 h2
  unfold Csv.extract_bic
  rw [h1, h2]

/-- Claim C10: a Structured-format entry whose booking-date element is
absent, or carries neither a date nor a date-time, parses without error and
its transaction date is the wall-clock day passed for `Utc::now`. -/
theorem claim_C10_booking_date_wall_clock (entry : Camt053.EntryXml) (dflt : Str)
    (now : Date) (t : Transaction)
    (hbd : entry.bookg_dt = none ∨ entry.bookg_dt = some ⟨none, none⟩)
    (h : Camt053.parse_entry entry dflt now = .ok t) : t.date = now :=
  camt_entry_default_date hbd h

/-- Witness for C10: the entry without a booking date parses successfully
and its date is the supplied wall-clock day 2024-02-03. -/
theorem claim_C10_booking_date_wall_clock_witness :
    Camt053.parse_entry c10entry "EUR".toList ⟨2024, 2, 3⟩ = .ok c10tx
      ∧ c10tx.date = (⟨2024, 2, 3⟩ : Date) :=
  ⟨by decide,
    claim_C10_booking_date_wall_clock c10entry "EUR".toList ⟨2024, 2, 3⟩ c10tx
      (Or.inl rfl) (by decide)⟩
